import Mathlib

/-!
Verification development for the `openapi3-normalizer` repository.

The repository has two components:
* a reference resolver (`resolve` in `object-resolver`), which rewrites every
  local JSON-Pointer `$ref` node of a document graph in place, and
* a document modeler (`run` in `modeler.ts`), which turns a resolved OpenAPI
  3.0.0 document into a normalized `Model`.

This file shallowly embeds those components.  JavaScript strings are modeled
as Lean `String` (lists of characters); the single-character `split` calls of
the source are modeled by an explicit structural split so that everything
evaluates inside the kernel.  JavaScript exceptions are modeled by
`Except`, with one error constructor per `throw new Error(...)` site of the
source.  The in-place mutation that the modeler performs on response header
nodes is made explicit: the embedded `run` returns both the `Model` and the
document graph as it stands after the run.
-/

namespace Oas

/-! ### JavaScript string primitives

`s.split(c)` for a one-character separator `c`, modeled on `List Char`.
`splitAux` returns the first piece and the remaining pieces, so the result of
`splitOnCharCL` is never empty, exactly as in JavaScript. -/

def splitAux (sep : Char) : List Char → List Char × List (List Char)
  | [] => ([], [])
  | c :: cs =>
    let r := splitAux sep cs
    if c = sep then ([], r.1 :: r.2) else (c :: r.1, r.2)

def splitOnCharCL (sep : Char) (cs : List Char) : List (List Char) :=
  ((splitAux sep cs).1) :: (splitAux sep cs).2

/-- `a.join(sep)` restricted to the shape produced by `splitAux`:
`recombine sep h ps = h ++ sep ++ ps[0] ++ sep ++ ps[1] ++ ...`. -/
def recombine (sep : Char) (h : List Char) (ps : List (List Char)) : List Char :=
  h ++ (ps.map (fun p => sep :: p)).flatten

/-- JavaScript code-unit lexicographic string order (the default
`Array.prototype.sort()` comparison).  Characters are compared by numeric
value; for the ASCII names occurring in OpenAPI documents this coincides
with the UTF-16 code-unit order used by JavaScript. -/
def lexLe : List Char → List Char → Bool
  | [], _ => true
  | _ :: _, [] => false
  | a :: as, b :: bs =>
    if a.toNat < b.toNat then true
    else if b.toNat < a.toNat then false
    else lexLe as bs

def strLE (a b : String) : Prop := lexLe a.data b.data = true

instance : DecidableRel strLE := fun a b => instDecidableEqBool (lexLe a.data b.data) true

/-- `names.sort()` on an array of strings.  JavaScript's sort is stable and
its output on a total order is unique, so the (stable) insertion sort is a
faithful model. -/
def sortStrings (l : List String) : List String := l.insertionSort strLE

/-- Canonical decimal index: JavaScript treats a string property key as a
numeric index exactly when the string is the canonical decimal form of a
non-negative integer (`"3"`, `"200"`, but not `"007"` or `"2XX"`).  Used
both for array element access in the resolver and for the array-index key
test of the `Object.keys` enumeration order (`jsKeysOrder`). -/
def parseIndex (s : String) : Option Nat :=
  match s.data with
  | [] => none
  | ['0'] => some 0
  | c :: cs =>
    if c.isDigit && c != '0' && cs.all Char.isDigit then
      some ((c :: cs).foldl (fun acc d => acc * 10 + (d.toNat - 48)) 0)
    else none

/-! ### The error type of the modeler

One constructor per `throw new Error(...)` site of `modeler.ts`; the
constructor names paraphrase the thrown message strings. -/

inductive ModelError where
  /-- Message "invalid path format". -/
  | invalidPathFormat
  /-- Message "empty parameter names not allowed". -/
  | emptyParameterName
  /-- Message "allowEmptyValue only allowed on query parameters". -/
  | allowEmptyValueOnlyOnQuery
  /-- Message "expected required=true on path parameter". -/
  | requiredTrueExpectedOnPath
  /-- Message "invalid path parameters". -/
  | invalidPathParameters
  /-- Message "invalid operation parameters". -/
  | invalidOperationParameters
  /-- Message "path parameters mismatch". -/
  | pathParametersMismatch
  /-- Message "invalid HTTP status code pattern (key)". -/
  | invalidStatusCodePattern (key : String)
  /-- Message "this modeler is for OpenAPI 3.0.0, found (version)". -/
  | unsupportedVersion (found : String)
deriving DecidableEq, Repr

/-! ### Paths (`parsePath`, modeler.ts lines 71-84) -/

inductive PathComponent where
  | const (value : String)
  | param (name : String)
deriving DecidableEq, Repr

def Path : Type := List PathComponent

instance : DecidableEq Path := inferInstanceAs (DecidableEq (List PathComponent))

instance : Repr Path := inferInstanceAs (Repr (List PathComponent))

instance {e a : Type} [DecidableEq e] [DecidableEq a] : DecidableEq (Except e a) := fun x y =>
  match x, y with
  | .ok u, .ok v =>
    match decEq u v with
    | isTrue h => isTrue (h ▸ rfl)
    | isFalse h => isFalse fun hh => h (Except.ok.inj hh)
  | .error u, .error v =>
    match decEq u v with
    | isTrue h => isTrue (h ▸ rfl)
    | isFalse h => isFalse fun hh => h (Except.error.inj hh)
  | .ok _, .error _ => isFalse fun hh => Except.noConfusion hh
  | .error _, .ok _ => isFalse fun hh => Except.noConfusion hh

/-- `x.type !== "const" || x.value !== ""` : the filter of modeler.ts line 83. -/
def keepComponent : PathComponent → Bool
  | .const v => v != ""
  | .param _ => true

/-- One iteration of the `for (const part of parts1)` loop of `parsePath`:
`part.split("}")` must have exactly two pieces, the first of which is a
non-empty parameter name. -/
def parsePathPart (part : List Char) : Except ModelError (List PathComponent) :=
  match splitOnCharCL '}' part with
  | [n, c] =>
    if n.isEmpty then .error .emptyParameterName
    else .ok [.param (String.mk n), .const (String.mk c)]
  | _ => .error .invalidPathFormat

def parsePathCL (cs : List Char) : Except ModelError Path := do
  let first := (splitAux '{' cs).1
  let parts := (splitAux '{' cs).2
  let tails ← parts.mapM parsePathPart
  let result := PathComponent.const (String.mk first) :: tails.flatten
  pure (result.filter keepComponent)

def parsePath (path : String) : Except ModelError Path := parsePathCL path.data

/-- Re-joining a component sequence: constants verbatim, parameters
re-wrapped in braces (`"\x7b" ++ name ++ "\x7d"`). -/
def joinPathCL : List PathComponent → List Char
  | [] => []
  | .const v :: rest => v.data ++ joinPathCL rest
  | .param n :: rest => '{' :: (n.data ++ ('}' :: joinPathCL rest))

def joinPath (p : Path) : String := String.mk (joinPathCL p)

/-! ### OpenAPI document objects (src/types/OpenApi.ts)

Only the fields the modeler reads are modeled.  Objects/maps are association
lists holding the objects' own properties in insertion (declaration) order.
NOTE that `Object.keys` does NOT enumerate such an object in insertion order
when some keys look like array indices: ECMAScript's OrdinaryOwnPropertyKeys
lists array-index keys first, in ascending numeric order, and only then the
remaining string keys in insertion order (`jsKeysOrder` below).  The loops
embedded here consume the association lists in list order; every property
proved about them below is invariant under the enumeration order, with one
exception -- the relative order of responses with equal wildcard counts
(claim C9) -- which is therefore settled against `jsKeysOrder` explicitly.
An optional field of the TypeScript interface becomes an
`Option`; `HeaderObject` additionally keeps `name`/`location` optional
because raw header nodes of a document do not carry them -- the modeler
writes them in place (see `processResponseHeader`). -/

inductive Location where
  | query | header | path | cookie
deriving DecidableEq, Repr

/-- Serialization styles of the OpenAPI `style` field. -/
inductive Style where
  | matrix | label | form | simple | spaceDelimited | pipeDelimited | deepObject
deriving DecidableEq, Repr

structure ServerVariableObject where
  enumVals : Option (List String)
  default : String
  description : Option String
deriving DecidableEq, Repr

/-- The source field `variables` is called `variablesMap` here (`variables`
is a reserved Lean token). -/
structure ServerObject where
  url : String
  description : Option String
  variablesMap : Option (List (String × ServerVariableObject))
deriving DecidableEq, Repr

structure ExternalDocumentationObject where
  url : String
  description : Option String
deriving DecidableEq, Repr

structure TagObject where
  name : String
  description : Option String
deriving DecidableEq, Repr

/-- The source field `in` is called `location` here (`in` is a Lean keyword). -/
structure ParameterObject where
  name : String
  location : Location
  description : Option String
  required : Option Bool
  deprecated : Option Bool
  allowEmptyValue : Option Bool
  style : Option Style
  explode : Option Bool
deriving DecidableEq, Repr

/-- In the TypeScript source `HeaderObject extends ParameterObject`, but a raw
header node in a document carries neither `name` nor `in`; the modeler
assigns both in place before parsing the node as a parameter. -/
structure HeaderObject where
  name : Option String
  location : Option Location
  description : Option String
  required : Option Bool
  deprecated : Option Bool
  allowEmptyValue : Option Bool
  style : Option Style
  explode : Option Bool
deriving DecidableEq, Repr

structure ResponseObject where
  description : Option String
  headers : Option (List (String × HeaderObject))
  /-- Link names; the modeler reads the keys of `links` and does nothing with
  them, so only the keys are modeled. -/
  links : Option (List String)
deriving DecidableEq, Repr

structure OperationObject where
  tags : Option (List String)
  summary : Option String
  description : Option String
  externalDocs : Option ExternalDocumentationObject
  operationId : Option String
  parameters : Option (List ParameterObject)
  responses : List (String × ResponseObject)
  deprecated : Option Bool
  servers : Option (List ServerObject)
deriving DecidableEq, Repr

structure PathItemObject where
  summary : Option String
  description : Option String
  get : Option OperationObject
  put : Option OperationObject
  post : Option OperationObject
  delete : Option OperationObject
  options : Option OperationObject
  head : Option OperationObject
  patch : Option OperationObject
  trace : Option OperationObject
  servers : Option (List ServerObject)
  parameters : Option (List ParameterObject)
deriving DecidableEq, Repr

structure OpenAPIObject where
  openapi : String
  servers : Option (List ServerObject)
  paths : List (String × PathItemObject)
  tags : Option (List TagObject)
deriving DecidableEq, Repr

inductive HttpMethod where
  | get | put | post | delete | options | head | patch | trace
deriving DecidableEq, Repr

/-- Fixed iteration order of modeler.ts lines 17-18. -/
def httpMethods : List HttpMethod :=
  [.get, .put, .post, .delete, .options, .head, .patch, .trace]

def getOp (pi : PathItemObject) : HttpMethod → Option OperationObject
  | .get => pi.get
  | .put => pi.put
  | .post => pi.post
  | .delete => pi.delete
  | .options => pi.options
  | .head => pi.head
  | .patch => pi.patch
  | .trace => pi.trace

def setOp (pi : PathItemObject) : HttpMethod → OperationObject → PathItemObject
  | .get, o => { pi with get := some o }
  | .put, o => { pi with put := some o }
  | .post, o => { pi with post := some o }
  | .delete, o => { pi with delete := some o }
  | .options, o => { pi with options := some o }
  | .head, o => { pi with head := some o }
  | .patch, o => { pi with patch := some o }
  | .trace, o => { pi with trace := some o }

/-! ### The normalized model (modeler.ts lines 26-69) -/

structure Server where
  urlPrefix : Path
  description : Option String
  variablesMap : List (String × ServerVariableObject)
deriving DecidableEq, Repr

/-- The modeler's `Header` interface.  Its `content` field is always the
empty object `\x7b\x7d` in this modeler variant (modeler.ts line 107) and
carries no information, so it is not modeled. -/
structure ModelHeader where
  name : String
  description : Option String
  required : Bool
  deprecated : Bool
  locationQueryAllowEmptyValue : Option Bool
deriving DecidableEq, Repr

/-- The modeler's `Parameter` interface (`Header` plus a location). -/
structure Parameter where
  name : String
  location : Location
  description : Option String
  required : Bool
  deprecated : Bool
  locationQueryAllowEmptyValue : Option Bool
deriving DecidableEq, Repr

/-- The `delete result.location` step of modeler.ts line 222. -/
def dropLocation (p : Parameter) : ModelHeader :=
  { name := p.name, description := p.description, required := p.required,
    deprecated := p.deprecated,
    locationQueryAllowEmptyValue := p.locationQueryAllowEmptyValue }

structure Response where
  key : String
  description : Option String
  headers : List ModelHeader
deriving DecidableEq, Repr

structure Method where
  urlSuffix : Path
  tags : List String
  summary : Option String
  description : Option String
  externalDocs : Option ExternalDocumentationObject
  operationId : Option String
  responses : List Response
  parameters : List Parameter
  deprecated : Bool
  servers : List Server
deriving DecidableEq, Repr

structure Model where
  operations : List Method
  tags : List TagObject
deriving DecidableEq, Repr

/-! ### JavaScript truthiness helpers -/

/-- JavaScript `a || b` for an optional string `a`: the empty string is falsy
and falls through to `b`. -/
def jsOrStr : Option String → Option String → Option String
  | some s, b => if s = "" then b else some s
  | none, b => b

/-- JavaScript `a || b` for an optional boolean `a`: both `undefined` and
`false` fall through to `b`. -/
def jsOrBool : Option Bool → Bool → Bool
  | some true, _ => true
  | some false, b => b
  | none, b => b

/-! ### Servers (modeler.ts lines 86-95) -/

def parseServer (s : ServerObject) : Except ModelError Server :=
  match parsePath s.url with
  | .error e => .error e
  | .ok p => .ok { urlPrefix := p, description := s.description,
                   variablesMap := s.variablesMap.getD [] }

/-- `servers ? servers.map(parseServer) : undefined`.  Note that an explicit
empty array maps to `some []`: a JavaScript array is truthy even when empty,
so an explicitly empty server list short-circuits the later `|| fallback`. -/
def parseServers : Option (List ServerObject) → Except ModelError (Option (List Server))
  | none => .ok none
  | some ss =>
    match ss.mapM parseServer with
    | .error e => .error e
    | .ok l => .ok (some l)

/-- The document-level server list of modeler.ts lines 143-144: parse the
declared servers (defaulting to `[]`), then push a synthetic `/` server if
the list is empty. -/
def effectiveDocServers (servers : Option (List ServerObject)) : Except ModelError (List Server) :=
  match parseServers servers with
  | .error e => .error e
  | .ok parsed =>
    if (parsed.getD []).length = 0 then
      match parsePath "/" with
      | .error e => .error e
      | .ok p => .ok (parsed.getD [] ++ [{ urlPrefix := p, description := none, variablesMap := [] }])
    else
      .ok (parsed.getD [])

/-! ### Parameters (modeler.ts lines 101-134) -/

def parseParameter (p : ParameterObject) : Except ModelError Parameter :=
  if p.location != .query && p.allowEmptyValue.isSome then
    .error .allowEmptyValueOnlyOnQuery
  else if p.location == .path && !(p.required.getD false) then
    .error .requiredTrueExpectedOnPath
  else
    .ok { name := p.name, location := p.location, description := p.description,
          required := p.required.getD false, deprecated := p.deprecated.getD false,
          locationQueryAllowEmptyValue := p.allowEmptyValue }

def parseParameters : Option (List ParameterObject) → Except ModelError (Option (List Parameter))
  | none => .ok none
  | some ps =>
    match ps.mapM parseParameter with
    | .error e => .error e
    | .ok l => .ok (some l)

/-- `JSON.stringify([parameter.name, parameter.location])`.  `JSON.stringify`
is injective on pairs of strings and the key is only ever compared for
equality (merge) or sorted to detect duplicates, so the pair itself is a
faithful model of the key. -/
def getParameterKey (p : Parameter) : String × Location := (p.name, p.location)

def locName : Location → String
  | .query => "query"
  | .header => "header"
  | .path => "path"
  | .cookie => "cookie"

/-- Order used to sort parameter keys.  The source sorts the stringified
keys with the default string order; any linear order groups equal keys
adjacently, which is all `checkParameters` relies on. -/
def keyLE (a b : String × Location) : Prop :=
  (if a.1 = b.1 then lexLe (locName a.2).data (locName b.2).data
   else lexLe a.1.data b.1.data) = true

instance : DecidableRel keyLE := fun a b => by unfold keyLE; infer_instance

/-- The `keys.some((key, index) => index !== 0 && key === keys[index - 1])`
scan of modeler.ts line 131: is some key equal to its predecessor? -/
def hasAdjacentDup : List (String × Location) → Bool
  | a :: b :: rest => a == b || hasAdjacentDup (b :: rest)
  | _ => false

def checkParameters (ps : List Parameter) : Bool :=
  let keys := (ps.map getParameterKey).insertionSort keyLE
  !(hasAdjacentDup keys)

/-- The parameter-merge loop of modeler.ts lines 176-192: start from the
path-level list; an operation-level parameter replaces every entry sharing
its key, and is appended when no entry shares it. -/
def mergeParams (pathParams opParams : List Parameter) : List Parameter :=
  opParams.foldl
    (fun parameters param =>
      let found := parameters.any fun t => getParameterKey param == getParameterKey t
      let replaced := parameters.map fun t =>
        if getParameterKey param == getParameterKey t then param else t
      if found then replaced else replaced ++ [param])
    pathParams

/-- Names of the `\x7bname\x7d` placeholders of a parsed path template
(modeler.ts line 196). -/
def templateParamNames (path : Path) : List String :=
  path.filterMap fun x => match x with | .param n => some n | .const _ => none

/-- The comparison of modeler.ts line 197: equal length and elementwise
equality, i.e. list equality. -/
def sameStringLists (a b : List String) : Bool :=
  a.length == b.length && (a.zip b).all fun p => p.1 == p.2

/-! ### Responses (modeler.ts lines 206-241) -/

/-- Count of `X` wildcard characters of a status key
(`key.split("").filter(c => c === "X").length`). -/
def countX (s : String) : Nat := (s.data.filter (fun c => c == 'X')).length

/-- The `if (responseKey === "default") responseKey = "XXX"` rewrite. -/
def normalizeResponseKey (k : String) : String := if k == "default" then "XXX" else k

/-- The regular expression `^[0-9X]\x7b3\x7d$`. -/
def validStatusKey (k : String) : Bool :=
  k.data.length == 3 && k.data.all fun c => c.isDigit || c == 'X'

/-- Sort key relation of modeler.ts line 241: ascending count of `X`
wildcard characters. -/
def respLE (a b : Response) : Prop := countX a.key ≤ countX b.key

instance : DecidableRel respLE := fun a b => Nat.decLe (countX a.key) (countX b.key)

instance : IsTotal Response respLE := ⟨fun x y => Nat.le_total (countX x.key) (countX y.key)⟩

instance : IsTrans Response respLE := ⟨fun _ _ _ => Nat.le_trans⟩

/-- `responses.sort((a, b) => countX(a.key) - countX(b.key))`.  JavaScript's
sort is stable, and a stable sort's output is unique for a total preorder
comparator, so the stable insertion sort is a faithful model. -/
def sortResponses (l : List Response) : List Response := l.insertionSort respLE

/-- Response-header handling of modeler.ts lines 217-223.  The source takes
the header node out of the document, writes `param.name = name` and
`param.in = "header"` INTO that node (an in-place mutation of the input
graph), parses it as a parameter, and deletes the resulting `location`.
Returns the model header together with the mutated document node. -/
def processResponseHeader (nm : String) (h : HeaderObject) :
    Except ModelError (ModelHeader × HeaderObject) :=
  -- `param.name = name; param.in = "header"`: the mutated document node is
  -- `{ h with name := some nm, location := some Location.header }`, and
  -- `parseParameter` is applied to exactly that node.
  match parseParameter
    { name := nm, location := .header, description := h.description,
      required := h.required, deprecated := h.deprecated,
      allowEmptyValue := h.allowEmptyValue, style := h.style, explode := h.explode } with
  | .error e => .error e
  | .ok r => .ok (dropLocation r, { h with name := some nm, location := some Location.header })

/-- The header-processing step of the response loop, as it appears inside
the `headerNames.map(...)` callback: parse the (mutated) header node, pair
the updated document entry with the model header. -/
def headerEntryStep (p : String × HeaderObject) :
    Except ModelError ((String × HeaderObject) × ModelHeader) :=
  match processResponseHeader p.1 p.2 with
  | .error e => Except.error e
  | .ok r => Except.ok ((p.1, r.2), r.1)

/-- One iteration of the response loop (modeler.ts lines 208-239): normalize
and validate the status key, then process the headers.  Returns the model
response together with the response object as it stands in the document
after the header mutations. -/
def processResponse (k : String) (ro : ResponseObject) :
    Except ModelError (Response × ResponseObject) :=
  if !(validStatusKey (normalizeResponseKey k)) then
    .error (.invalidStatusCodePattern (normalizeResponseKey k))
  else
    match (ro.headers.getD []).mapM headerEntryStep with
    | .error e => .error e
    | .ok processed =>
      .ok ({ key := normalizeResponseKey k, description := ro.description,
             headers := processed.map Prod.snd },
           { ro with headers := ro.headers.map fun _ => processed.map Prod.fst })

/-- The full response loop over `(key, response)` entries, in the order in
which the entries are given, before the final sort.  The source iterates
`Object.keys(operationObject.responses)` (modeler.ts line 207), whose
enumeration order is `jsKeysOrder` below, NOT the declaration order: the
program's pre-sort response list for a declared entry list `rs` is
`buildResponsesCore (jsKeysOrder rs)`.  Every conclusion proved about this
loop below is invariant under the order of `rs` (sortedness, the key
multiset, existence of a failure), except the relative order of responses
with equal wildcard counts, which claim C9 states against `jsKeysOrder`. -/
def buildResponsesCore :
    List (String × ResponseObject) →
    Except ModelError (List ((String × ResponseObject) × Response))
  | [] => .ok []
  | (k, ro) :: rest =>
    match processResponse k ro with
    | .error e => .error e
    | .ok r2 =>
      match buildResponsesCore rest with
      | .error e => .error e
      | .ok tail => .ok (((k, r2.2), r2.1) :: tail)

/-- An ECMAScript array-index property key: the canonical decimal form of
an integer below `2^32 - 1`.  HTTP status-code keys such as `"200"`
qualify; `"default"`, `"2XX"` and non-canonical forms such as `"007"` do
not. -/
def arrayIndexKey (s : String) : Option Nat :=
  match parseIndex s with
  | some n => if n < 4294967295 then some n else none
  | none => none

/-- Enumeration precedence among array-index keys: ascending numeric
value. -/
def keyIdxLE {α : Type} (a b : String × α) : Prop :=
  (arrayIndexKey a.1).getD 0 ≤ (arrayIndexKey b.1).getD 0

instance {α : Type} : DecidableRel (@keyIdxLE α) :=
  fun a b => Nat.decLe ((arrayIndexKey a.1).getD 0) ((arrayIndexKey b.1).getD 0)

/-- The order in which `Object.keys` enumerates an object's own string keys
(ECMAScript OrdinaryOwnPropertyKeys, ES2015+): keys that are array indices
come first, in ascending numeric order, followed by the remaining keys in
insertion order.  For the response map of an operation this means literal
status codes such as `"200"`/`"404"` are enumerated numerically ascending
ahead of keys such as `"default"` or `"2XX"`, regardless of the order in
which the document declares them. -/
def jsKeysOrder {α : Type} (l : List (String × α)) : List (String × α) :=
  (l.filter fun p => (arrayIndexKey p.1).isSome).insertionSort keyIdxLE ++
    (l.filter fun p => !(arrayIndexKey p.1).isSome)

/-! ### Operations (modeler.ts lines 168-256) -/

def processOperation (path : Path) (pathSummary pathDescription : Option String)
    (pathServers : List Server) (pathParameters : List Parameter)
    (op : OperationObject) : Except ModelError (Method × OperationObject) :=
  match parseServers op.servers with
  | .error e => .error e
  | .ok osv =>
    match parseParameters op.parameters with
    | .error e => .error e
    | .ok ops =>
      -- Faithful to modeler.ts line 173, which re-checks pathParameters here
      -- (not operationParameters) before throwing "invalid operation parameters".
      if !(checkParameters pathParameters) then .error .invalidOperationParameters
      else
        if !(sameStringLists
            (sortStrings (((mergeParams pathParameters (ops.getD [])).filter
              fun x => x.location == Location.path).map fun x => x.name))
            (sortStrings (templateParamNames path))) then .error .pathParametersMismatch
        else
          match buildResponsesCore op.responses with
          | .error e => .error e
          | .ok core =>
            .ok ({ urlSuffix := path,
                   tags := op.tags.getD [],
                   summary := jsOrStr op.summary pathSummary,
                   description := jsOrStr op.description pathDescription,
                   externalDocs := op.externalDocs,
                   operationId := op.operationId,
                   responses := sortResponses (core.map Prod.snd),
                   parameters := mergeParams pathParameters (ops.getD []),
                   deprecated := op.deprecated.getD false,
                   servers := osv.getD pathServers },
                 { op with responses := core.map Prod.fst })

/-- The `for (const httpMethod of httpMethods)` loop, threading the
document-side path item (whose operations' response headers get mutated). -/
def opsLoop (path : Path) (pathSummary pathDescription : Option String)
    (pathServers : List Server) (pathParameters : List Parameter) :
    List HttpMethod → List Method → PathItemObject →
    Except ModelError (List Method × PathItemObject)
  | [], acc, pi => .ok (acc, pi)
  | m :: rest, acc, pi =>
    match getOp pi m with
    | none => opsLoop path pathSummary pathDescription pathServers pathParameters rest acc pi
    | some op =>
      match processOperation path pathSummary pathDescription pathServers pathParameters op with
      | .error e => .error e
      | .ok mo =>
        opsLoop path pathSummary pathDescription pathServers pathParameters rest
          (acc ++ [mo.1]) (setOp pi m mo.2)

/-- One iteration of the `for (const rawPath of Object.keys(...))` loop
(modeler.ts lines 159-257). -/
def processPathItem (docServers : List Server) (raw : String) (pi : PathItemObject) :
    Except ModelError (List Method × PathItemObject) :=
  match parsePath raw with
  | .error e => .error e
  | .ok path =>
    match parseServers pi.servers with
    | .error e => .error e
    | .ok psv =>
      match parseParameters pi.parameters with
      | .error e => .error e
      | .ok pps =>
        if !(checkParameters (pps.getD [])) then .error .invalidPathParameters
        else opsLoop path pi.summary pi.description (psv.getD docServers) (pps.getD [])
          httpMethods [] pi

def pathsLoop (docServers : List Server) :
    List (String × PathItemObject) → List Method → List (String × PathItemObject) →
    Except ModelError (List Method × List (String × PathItemObject))
  | [], ops, acc => .ok (ops, acc)
  | (raw, pi) :: rest, ops, acc =>
    match processPathItem docServers raw pi with
    | .error e => .error e
    | .ok mp => pathsLoop docServers rest (ops ++ mp.1) (acc ++ [(raw, mp.2)])

/-- The document modeler `run` (modeler.ts lines 136-262).  The in-place
mutation of response header nodes is made explicit: the result carries the
document graph as it stands after the run. -/
def run (d : OpenAPIObject) : Except ModelError (Model × OpenAPIObject) :=
  if d.openapi != "3.0.0" then .error (.unsupportedVersion d.openapi)
  else
    match effectiveDocServers d.servers with
    | .error e => .error e
    | .ok servers =>
      match pathsLoop servers d.paths [] [] with
      | .error e => .error e
      | .ok op2 => .ok ({ operations := op2.1, tags := d.tags.getD [] }, { d with paths := op2.2 })

/-! ### The document-side effect of `run`, described directly

The only writes `run` performs on the input graph are
`param.name = name; param.in = "header"` on each response header node.
`stampDocument` applies exactly that transformation. -/

def stampHeaderEntry (p : String × HeaderObject) : String × HeaderObject :=
  (p.1, { p.2 with name := some p.1, location := some Location.header })

def stampResponseObject (ro : ResponseObject) : ResponseObject :=
  { ro with headers := ro.headers.map fun l => l.map stampHeaderEntry }

def stampOperationObject (op : OperationObject) : OperationObject :=
  { op with responses := op.responses.map fun p => (p.1, stampResponseObject p.2) }

def stampPathItem (pi : PathItemObject) : PathItemObject :=
  { pi with
    get := pi.get.map stampOperationObject,
    put := pi.put.map stampOperationObject,
    post := pi.post.map stampOperationObject,
    delete := pi.delete.map stampOperationObject,
    options := pi.options.map stampOperationObject,
    head := pi.head.map stampOperationObject,
    patch := pi.patch.map stampOperationObject,
    trace := pi.trace.map stampOperationObject }

def stampDocument (d : OpenAPIObject) : OpenAPIObject :=
  { d with paths := d.paths.map fun p => (p.1, stampPathItem p.2) }

/-- Stamping restricted to a given method list, mirroring the shape of the
method loop (`opsLoop`); over the full `httpMethods` list this coincides
with `stampPathItem`. -/
def stampOnMethods : List HttpMethod → PathItemObject → PathItemObject
  | [], pi => pi
  | m :: rest, pi =>
    match getOp pi m with
    | none => stampOnMethods rest pi
    | some op => stampOnMethods rest (setOp pi m (stampOperationObject op))

/-! ### Format normalization of the later modeler variant (src/unnamed/part_001)

`normalizeFormat` (lines 171-181) computes the style/explode pair.  Note the
JavaScript `obj.explode || (style === "form")`: a declared `explode: false`
is falsy and falls through to the style-based default, exactly like an
absent `explode`. -/

structure Format where
  style : Style
  explode : Bool
deriving DecidableEq, Repr

def normalizeFormat (location : Location) (st : Option Style) (ex : Option Bool) : Format :=
  let style := st.getD (if location == .query || location == .cookie then .form else .simple)
  let explode := jsOrBool ex (style == .form)
  { style := style, explode := explode }

/-- The inline style/explode computation of `parseParameterBase`
(src/unnamed/part_001 lines 190-191); textually the same expressions as
`normalizeFormat`, applied to a parameter object's own fields. -/
def parameterBaseFormat (p : ParameterObject) : Format :=
  let style := p.style.getD (if p.location == .query || p.location == .cookie then .form else .simple)
  let explode := jsOrBool p.explode (style == .form)
  { style := style, explode := explode }

/-! ### The reference resolver (src/unnamed/part_002)

The document graph is a JSON value.  Arrays and objects carry their own
list spines so that all traversals are structural and kernel-evaluable.
`resolve` collects every node carrying a truthy `$ref` property (the
`jsonpath` query on line 4 selects such nodes strictly below the top level)
and processes each hit in order: a guard rejects non-local references, the
JSON-Pointer segments are decoded, the source node is tagged with its own
path (`$path`) and the hit location is overwritten with the source node. -/

mutual
inductive Json where
  | null
  | bool (b : Bool)
  | num (n : Int)
  | str (s : String)
  | arr (elems : Jsons)
  | obj (fields : JFields)
deriving DecidableEq, Repr
inductive Jsons where
  | nil
  | cons (hd : Json) (tl : Jsons)
deriving DecidableEq, Repr
inductive JFields where
  | nil
  | cons (key : String) (val : Json) (tl : JFields)
deriving DecidableEq, Repr
end

/-- One constructor per failure mode of `resolve`. -/
inductive ResolveError where
  /-- Message "invalid syntax of local reference" (part_002 line 10). -/
  | invalidLocalReference
  /-- TypeError: a truthy non-string `$ref` value has no `split` method. -/
  | refValueNotAString
  /-- TypeError raised by one of the eval'd path accesses (lines 14-15). -/
  | pathResolutionFailed
deriving DecidableEq, Repr

/-- Does the character list start with `#` (JavaScript `startsWith("#")`
for the one-character prefix used here)? -/
def jsStartsWithHash : List Char → Bool
  | [] => false
  | c :: _ => c == '#'

/-- The first `/`-separated segment of a reference string
(`sourceRef.split("/")` followed by `shift() || ""`). -/
def refFirstSegment (r : String) : String :=
  String.mk ((splitOnCharCL '/' r.data).headD [])

/-- JSON-Pointer unescaping, first step: `part.replace(/~1/g, "/")`. -/
def unescapeSlash : List Char → List Char
  | '~' :: '1' :: rest => '/' :: unescapeSlash rest
  | c :: rest => c :: unescapeSlash rest
  | [] => []

/-- JSON-Pointer unescaping, second step: `part.replace(/~0/g, "~")`. -/
def unescapeTilde : List Char → List Char
  | '~' :: '0' :: rest => '~' :: unescapeTilde rest
  | c :: rest => c :: unescapeTilde rest
  | [] => []

def ptrDecode (s : String) : String := String.mk (unescapeTilde (unescapeSlash s.data))

/-- JavaScript truthiness of a JSON value (the `?(@.$ref)` filter). -/
def jsTruthy : Json → Bool
  | .null => false
  | .bool b => b
  | .num n => n != 0
  | .str s => s != ""
  | .arr _ => true
  | .obj _ => true

/-- First binding of a key in an object (JavaScript property read). -/
def jGet : JFields → String → Option Json
  | .nil, _ => none
  | .cons k v t, key => if k = key then some v else jGet t key

/-- JavaScript property write: replace the first binding of the key, or
append a new binding at the end. -/
def jSet : JFields → String → Json → JFields
  | .nil, key, v => .cons key v .nil
  | .cons k w t, key, v => if k = key then .cons k v t else .cons k w (jSet t key v)

def jsonsGet : Jsons → Nat → Option Json
  | .nil, _ => none
  | .cons h _, 0 => some h
  | .cons _ t, n + 1 => jsonsGet t n

def jsonsSet : Jsons → Nat → Json → Option Jsons
  | .nil, _, _ => none
  | .cons _ t, 0, v => some (.cons v t)
  | .cons h t, n + 1, v => (jsonsSet t n v).map (.cons h ·)

/-- Resolving a segment path against the document root (the eval'd
`$["seg"]["seg"]...` read of part_002 lines 13-15).  A missing step is a
TypeError. -/
def getAtPath : Json → List String → Except ResolveError Json
  | j, [] => .ok j
  | j, k :: rest =>
    match j with
    | .obj fs =>
      match jGet fs k with
      | some v => getAtPath v rest
      | none => .error .pathResolutionFailed
    | .arr es =>
      match parseIndex k with
      | some i =>
        match jsonsGet es i with
        | some v => getAtPath v rest
        | none => .error .pathResolutionFailed
      | none => .error .pathResolutionFailed
    | _ => .error .pathResolutionFailed

/-- Assignment through a segment path (the eval'd writes of part_002 lines
14-15).  Writing a property onto a primitive, or through a missing step, is
a TypeError (the compiled module runs in strict mode).  Extending an array
past its end and attaching non-index properties to arrays fall outside this
model; the claims settled here do not exercise them. -/
def setAtPath : Json → List String → Json → Except ResolveError Json
  | _, [], v => .ok v
  | j, k :: rest, v =>
    match j with
    | .obj fs =>
      match rest with
      | [] => .ok (.obj (jSet fs k v))
      | _ :: _ =>
        match jGet fs k with
        | some w =>
          match setAtPath w rest v with
          | .error e => .error e
          | .ok w2 => .ok (.obj (jSet fs k w2))
        | none => .error .pathResolutionFailed
    | .arr es =>
      match parseIndex k with
      | some i =>
        match rest with
        | [] =>
          match jsonsSet es i v with
          | some es2 => .ok (.arr es2)
          | none => .error .pathResolutionFailed
        | _ :: _ =>
          match jsonsGet es i with
          | some w =>
            match setAtPath w rest v with
            | .error e => .error e
            | .ok w2 =>
              match jsonsSet es i w2 with
              | some es2 => .ok (.arr es2)
              | none => .error .pathResolutionFailed
          | none => .error .pathResolutionFailed
      | none => .error .pathResolutionFailed
    | _ => .error .pathResolutionFailed

/-- The value of a node's `$ref` property, if any. -/
def refFieldOf : Json → Option Json
  | .obj fs => jGet fs "$ref"
  | _ => none

def isRefHit (j : Json) : Bool :=
  match refFieldOf j with
  | some v => jsTruthy v
  | none => false

mutual
/-- All strict descendants of a node, with their paths from that node, in
depth-first preorder. -/
def descendantsJ (pre : List String) : Json → List (List String × Json)
  | .obj fs => descendantsF pre fs
  | .arr es => descendantsL pre 0 es
  | _ => []
def descendantsF (pre : List String) : JFields → List (List String × Json)
  | .nil => []
  | .cons k v t =>
    (pre ++ [k], v) :: (descendantsJ (pre ++ [k]) v ++ descendantsF pre t)
def descendantsL (pre : List String) (i : Nat) : Jsons → List (List String × Json)
  | .nil => []
  | .cons h t =>
    (pre ++ [toString i], h) :: (descendantsJ (pre ++ [toString i]) h ++ descendantsL pre (i + 1) t)
end

/-- The hits of the `jsonpath` query of part_002 line 4: nodes strictly
below the top level (the query's subscript filter applies to children of
the descendants enumerated by the recursive-descent step) whose `$ref`
property is truthy.  Each hit is returned as (path of the hit node, value
of its `$ref` property).  The hit order approximates the query's traversal
order; none of the properties proved below depend on hit order. -/
def collectRefs (doc : Json) : List (List String × Json) :=
  ((descendantsJ [] doc).filter fun h => decide (2 ≤ h.1.length) && isRefHit h.2).map
    fun h => (h.1, (refFieldOf h.2).getD .null)

def jsonsOfStrings : List String → Jsons
  | [] => .nil
  | s :: rest => .cons (.str s) (jsonsOfStrings rest)

/-- The decoded JSON-Pointer segments of a reference string: everything
after the shifted-off first `/`-piece, unescaped. -/
def refSegments (sourceRef : String) : List String :=
  (splitOnCharCL '/' sourceRef.data).tail.map fun p => ptrDecode (String.mk p)

/-- The body of the per-reference loop of `resolve` (part_002 lines 5-15),
acting on the current state of the document graph: check the reference is
local, tag the source node with its `$path`, re-read the source node and
overwrite the hit location with it. -/
def resolveStep (doc : Json) (hit : List String × Json) : Except ResolveError Json :=
  match hit.2 with
  | .str sourceRef =>
    if !(jsStartsWithHash ((splitOnCharCL '/' sourceRef.data).headD [])) then
      .error .invalidLocalReference
    else
      match setAtPath doc (refSegments sourceRef ++ ["$path"])
          (.arr (jsonsOfStrings (refSegments sourceRef))) with
      | .error e => .error e
      | .ok doc1 =>
        match getAtPath doc1 (refSegments sourceRef) with
        | .error e => .error e
        | .ok src => setAtPath doc1 hit.1 src
  | _ => .error .refValueNotAString

/-- The reference resolver `resolve` of src/unnamed/part_002.  The set of
hits is computed once, up front, on the input graph; the loop body then
mutates the graph, threaded here as the fold accumulator. -/
def resolve (doc : Json) : Except ResolveError Json :=
  (collectRefs doc).foldlM resolveStep doc

mutual
/-- No node of the graph (the node itself included) carries a `$ref`
property. -/
def noRefJ : Json → Bool
  | .obj fs => !(jGet fs "$ref").isSome && noRefF fs
  | .arr es => noRefL es
  | _ => true
def noRefF : JFields → Bool
  | .nil => true
  | .cons _ v t => noRefJ v && noRefF t
def noRefL : Jsons → Bool
  | .nil => true
  | .cons h t => noRefJ h && noRefL t
end

/-! ### Concrete example documents used by the theorems below -/

/-- An operation object with every optional field absent and no responses. -/
def emptyOperation : OperationObject :=
  { tags := none, summary := none, description := none, externalDocs := none,
    operationId := none, parameters := none, responses := [], deprecated := none,
    servers := none }

/-- A path item object with every optional field absent. -/
def emptyPathItem : PathItemObject :=
  { summary := none, description := none, get := none, put := none, post := none,
    delete := none, options := none, head := none, patch := none, trace := none,
    servers := none, parameters := none }

/-- A minimal query parameter object named `nm`. -/
def queryParam (nm : String) : ParameterObject :=
  { name := nm, location := .query, description := none, required := none,
    deprecated := none, allowEmptyValue := none, style := none, explode := none }

/-- A response object with no headers and no links. -/
def emptyResponse : ResponseObject :=
  { description := none, headers := none, links := none }

/-- A raw header node, all fields absent (as in a plain YAML document). -/
def rawHeader : HeaderObject :=
  { name := none, location := none, description := none, required := none,
    deprecated := none, allowEmptyValue := none, style := none, explode := none }

/-- A document whose only operation declares the same `(name, location)`
parameter key twice at the operation level (path-level list is empty). -/
def docOpParamDup : OpenAPIObject :=
  { openapi := "3.0.0", servers := none, tags := none,
    paths := [("/",
      { emptyPathItem with
        get := some { emptyOperation with parameters := some [queryParam "a", queryParam "a"] } })] }

/-- A document whose path item declares the same `(name, location)`
parameter key twice at the path level. -/
def docPathParamDup : OpenAPIObject :=
  { openapi := "3.0.0", servers := none, tags := none,
    paths := [("/",
      { emptyPathItem with
        get := some emptyOperation,
        parameters := some [queryParam "a", queryParam "a"] })] }

/-- A document with one response header node (used to exhibit the in-place
header mutation). -/
def docWithHeader : OpenAPIObject :=
  { openapi := "3.0.0", servers := none, tags := none,
    paths := [("/",
      { emptyPathItem with
        get := some { emptyOperation with
          responses := [("200",
            { description := some "ok", headers := some [("X-Rate", rawHeader)],
              links := none })] } })] }

/-- An operation declaring responses `default`, `200` and `2XX`, in that
order. -/
def opThreeResponses : OperationObject :=
  { emptyOperation with
    responses := [("default", emptyResponse), ("200", emptyResponse), ("2XX", emptyResponse)] }

/-- An operation declaring responses `404` and then `200` (equal wildcard
counts). -/
def opTwoLiteralResponses : OperationObject :=
  { emptyOperation with
    responses := [("404", emptyResponse), ("200", emptyResponse)] }

/-- An operation with an explicitly empty server list. -/
def opEmptyServers : OperationObject :=
  { emptyOperation with servers := some [] }

/-- A path item declaring an explicitly empty server list, whose only
operation has no servers field of its own. -/
def piEmptyServers : PathItemObject :=
  { emptyPathItem with servers := some [], get := some emptyOperation }

/-- The parsed path template of `/`. -/
def pathRoot : Path := [PathComponent.const "/"]

/-- The parsed path template of `/pets/\x7bid\x7d`. -/
def pathPets : Path := [PathComponent.const "/pets/", PathComponent.param "id"]

/-- A JSON document with no `$ref` properties anywhere. -/
def jsonPlain : Json :=
  .obj (.cons "components" (.obj (.cons "schemas" (.str "none") .nil)) .nil)

/-- A JSON document containing one `$ref` node whose reference string
`defs/x` is not local (it does not start with `#`). -/
def jsonBadRef : Json :=
  .obj (.cons "defs"
    (.obj (.cons "x" (.obj (.cons "$ref" (.str "defs/x") .nil)) .nil)) .nil)

/-- A JSON document containing one `$ref` node whose reference string
`#/t` is local; its target `t` is an object, so resolution succeeds. -/
def jsonGoodRef : Json :=
  .obj (.cons "defs"
    (.obj (.cons "x" (.obj (.cons "$ref" (.str "#/t") .nil)) .nil))
    (.cons "t" (.obj (.cons "v" (.num 1) .nil)) .nil))

/-! ## Theorems

General lemmas about the `Except` monad and `mapM`, used throughout. -/

@[simp] theorem exc_bind_ok {ε α β : Type} (a : α) (f : α → Except ε β) :
    (Except.ok a >>= f) = f a := rfl

@[simp] theorem exc_bind_error {ε α β : Type} (e : ε) (f : α → Except ε β) :
    ((Except.error e : Except ε α) >>= f) = Except.error e := rfl

@[simp] theorem exc_pure {ε α : Type} (a : α) : (pure a : Except ε α) = Except.ok a := rfl

@[simp] theorem exc_throw {ε α : Type} (e : ε) : (throw e : Except ε α) = Except.error e := rfl

theorem mapM_ok_forall {ε α β : Type} (f : α → Except ε β) :
    ∀ (l : List α) (out : List β), l.mapM f = .ok out →
      List.Forall₂ (fun a b => f a = .ok b) l out := by
  intro l
  induction l with
  | nil =>
    intro out h
    simp only [List.mapM_nil, exc_pure, Except.ok.injEq] at h
    subst h
    exact .nil
  | cons a l ih =>
    intro out h
    rw [List.mapM_cons] at h
    cases hfa : f a with
    | error e => rw [hfa] at h; simp at h
    | ok b =>
      rw [hfa] at h
      simp only [exc_bind_ok] at h
      cases hml : l.mapM f with
      | error e => rw [hml] at h; simp at h
      | ok bs =>
        rw [hml] at h
        simp only [exc_bind_ok, exc_pure, Except.ok.injEq] at h
        subst h
        exact .cons hfa (ih bs hml)

theorem mapM_isOk_false {ε α β : Type} (f : α → Except ε β) :
    ∀ (l : List α) (a : α), a ∈ l → (f a).isOk = false → (l.mapM f).isOk = false := by
  intro l
  induction l with
  | nil => intro a ha; cases ha
  | cons x l ih =>
    intro a ha hfa
    rw [List.mapM_cons]
    cases hfx : f x with
    | error e => rfl
    | ok b =>
      simp only [exc_bind_ok]
      rcases List.mem_cons.mp ha with rfl | hmem
      · rw [hfx] at hfa; simp [Except.isOk, Except.toBool] at hfa
      · cases hml : l.mapM f with
        | error e => rfl
        | ok bs =>
          have hko := ih a hmem hfa
          rw [hml] at hko
          simp [Except.isOk, Except.toBool] at hko

theorem mapM_error_mem {ε α β : Type} (f : α → Except ε β) :
    ∀ (l : List α) (e : ε), l.mapM f = .error e → ∃ a ∈ l, f a = .error e := by
  intro l
  induction l with
  | nil =>
    intro e h
    simp only [List.mapM_nil, exc_pure] at h
    exact Except.noConfusion h
  | cons x l ih =>
    intro e h
    rw [List.mapM_cons] at h
    cases hfx : f x with
    | error e2 =>
      rw [hfx] at h
      simp only [exc_bind_error, Except.error.injEq] at h
      exact ⟨x, List.mem_cons_self x l, by rw [hfx, h]⟩
    | ok b =>
      rw [hfx] at h
      simp only [exc_bind_ok] at h
      cases hml : l.mapM f with
      | error e2 =>
        rw [hml] at h
        simp only [exc_bind_error, Except.error.injEq] at h
        obtain ⟨a, hmem, hfa⟩ := ih e2 hml
        exact ⟨a, List.mem_cons_of_mem x hmem, by rw [hfa, h]⟩
      | ok bs => rw [hml] at h; simp at h

/-! ### Split/join lemmas for path templates -/

theorem splitAux_cons_eq (sep c : Char) (cs : List Char) :
    splitAux sep (c :: cs) =
      if c = sep then ([], (splitAux sep cs).1 :: (splitAux sep cs).2)
      else (c :: (splitAux sep cs).1, (splitAux sep cs).2) := rfl

theorem splitAux_recombine (sep : Char) :
    ∀ cs : List Char,
      (splitAux sep cs).1 ++ ((splitAux sep cs).2.map (fun p => sep :: p)).flatten = cs := by
  intro cs
  induction cs with
  | nil => rfl
  | cons c cs ih =>
    by_cases hc : c = sep
    · subst hc
      rw [splitAux_cons_eq, if_pos rfl]
      show [] ++ (((splitAux c cs).1 :: (splitAux c cs).2).map (fun p => c :: p)).flatten = c :: cs
      rw [List.nil_append, List.map_cons, List.flatten_cons, List.cons_append, ih]
    · rw [splitAux_cons_eq, if_neg hc]
      show (c :: (splitAux sep cs).1) ++ ((splitAux sep cs).2.map (fun p => sep :: p)).flatten
        = c :: cs
      rw [List.cons_append, ih]

theorem recombine_splitAux (sep : Char) (cs : List Char) :
    recombine sep (splitAux sep cs).1 (splitAux sep cs).2 = cs :=
  splitAux_recombine sep cs

theorem joinPathCL_append (a b : List PathComponent) :
    joinPathCL (a ++ b) = joinPathCL a ++ joinPathCL b := by
  induction a with
  | nil => rfl
  | cons x rest ih =>
    cases x with
    | const v => simp [joinPathCL, ih, List.append_assoc]
    | param n => simp [joinPathCL, ih, List.append_assoc]

theorem joinPathCL_filter (l : List PathComponent) :
    joinPathCL (l.filter keepComponent) = joinPathCL l := by
  induction l with
  | nil => rfl
  | cons x rest ih =>
    cases x with
    | const v =>
      by_cases hv : v = ""
      · subst hv
        simp [List.filter, keepComponent, joinPathCL, ih]
      · have hke : keepComponent (.const v) = true := by simp [keepComponent, hv]
        simp [List.filter, hke, joinPathCL, ih]
    | param n => simp [List.filter, keepComponent, joinPathCL, ih]

theorem parsePathPart_join (part : List Char) (pc : List PathComponent)
    (h : parsePathPart part = .ok pc) : joinPathCL pc = '{' :: part := by
  unfold parsePathPart at h
  rcases hsplit : splitOnCharCL '}' part with _ | ⟨n, _ | ⟨c, _ | ⟨d, rest⟩⟩⟩ <;> rw [hsplit] at h
  · simp at h
  · simp at h
  · replace h : (if n.isEmpty = true then
        (Except.error ModelError.emptyParameterName : Except ModelError (List PathComponent))
      else Except.ok [PathComponent.param (String.mk n), PathComponent.const (String.mk c)]) =
        Except.ok pc := h
    by_cases hn : n.isEmpty
    · rw [if_pos hn] at h; exact Except.noConfusion h
    · rw [if_neg hn] at h
      simp only [Except.ok.injEq] at h
      subst h
      have hsplit2 : (splitAux '}' part).1 :: (splitAux '}' part).2 = [n, c] := hsplit
      injection hsplit2 with e1 e2
      have hpart := splitAux_recombine '}' part
      rw [e1, e2] at hpart
      simp only [List.map_cons, List.map_nil, List.flatten_cons, List.flatten_nil,
        List.append_nil] at hpart
      show '{' :: ((String.mk n).data ++ ('}' :: ((String.mk c).data ++ joinPathCL []))) =
        '{' :: part
      show '{' :: (n ++ ('}' :: (c ++ []))) = '{' :: part
      rw [List.append_nil, ← hpart]
  · simp at h

theorem mapM_parts_join (parts : List (List Char)) (tails : List (List PathComponent))
    (h : parts.mapM parsePathPart = .ok tails) :
    joinPathCL tails.flatten = (parts.map fun p => '{' :: p).flatten := by
  have hf := mapM_ok_forall parsePathPart parts tails h
  clear h
  induction hf with
  | nil => rfl
  | cons hab htl ih =>
    simp only [List.flatten_cons, joinPathCL_append, ih, List.map_cons]
    rw [parsePathPart_join _ _ hab]

/-- C5: for every well-formed path template `t` (one on which `parsePath`
succeeds, i.e. every brace-opened fragment contains exactly one closing
brace and a non-empty parameter name), re-joining the parsed component
sequence -- constants verbatim, parameters re-wrapped in braces --
reconstructs `t` exactly, even though empty constant components are elided
from the parse result. -/
theorem claim5_parsePath_roundtrip (t : String) (l : Path) (h : parsePath t = .ok l) :
    joinPath l = t := by
  replace h : ((splitAux '{' t.data).2.mapM parsePathPart >>= fun tails =>
      pure ((PathComponent.const (String.mk (splitAux '{' t.data).1) ::
        tails.flatten).filter keepComponent)) = Except.ok l := h
  cases hm : ((splitAux '{' t.data).2).mapM parsePathPart with
  | error e => rw [hm] at h; exact Except.noConfusion h
  | ok tails =>
    rw [hm] at h
    simp only [exc_bind_ok, exc_pure, Except.ok.injEq] at h
    unfold joinPath
    rw [← h, joinPathCL_filter]
    show String.mk ((String.mk (splitAux '{' t.data).1).data ++ joinPathCL tails.flatten) = t
    show String.mk ((splitAux '{' t.data).1 ++ joinPathCL tails.flatten) = t
    rw [mapM_parts_join _ _ hm]
    show String.mk (recombine '{' (splitAux '{' t.data).1 (splitAux '{' t.data).2) = t
    rw [recombine_splitAux]

/-- C5 witness: a template with two adjacent parameters parses (the empty
constant between them is elided) and re-joins to the original string. -/
theorem claim5_witness :
    parsePath "/a/\x7bx\x7d\x7by\x7d" =
      .ok [PathComponent.const "/a/", PathComponent.param "x", PathComponent.param "y"] ∧
    joinPath [PathComponent.const "/a/", PathComponent.param "x", PathComponent.param "y"] =
      "/a/\x7bx\x7d\x7by\x7d" :=
  ⟨by decide, claim5_parsePath_roundtrip _ _ (by decide)⟩

/-! ### Inversion lemmas for the response pipeline -/

theorem parseParameter_error_kinds {p : ParameterObject} {e : ModelError}
    (h : parseParameter p = .error e) :
    e = .allowEmptyValueOnlyOnQuery ∨ e = .requiredTrueExpectedOnPath := by
  unfold parseParameter at h
  split at h
  · exact Or.inl (Except.error.inj h).symm
  · split at h
    · exact Or.inr (Except.error.inj h).symm
    · exact Except.noConfusion h

theorem processResponseHeader_error_kinds {nm : String} {hd : HeaderObject} {e : ModelError}
    (h : processResponseHeader nm hd = .error e) :
    e = .allowEmptyValueOnlyOnQuery ∨ e = .requiredTrueExpectedOnPath := by
  unfold processResponseHeader at h
  split at h
  · next hp => exact (Except.error.inj h) ▸ parseParameter_error_kinds hp
  · exact Except.noConfusion h

theorem processResponseHeader_ok_stamp {nm : String} {hd : HeaderObject}
    {mh : ModelHeader} {hd2 : HeaderObject}
    (h : processResponseHeader nm hd = .ok (mh, hd2)) :
    hd2 = { hd with name := some nm, location := some Location.header } := by
  unfold processResponseHeader at h
  split at h
  · exact Except.noConfusion h
  · exact congrArg Prod.snd (Except.ok.inj h) |>.symm

theorem headerEntryStep_error_kinds {p : String × HeaderObject} {e : ModelError}
    (h : headerEntryStep p = .error e) :
    e = .allowEmptyValueOnlyOnQuery ∨ e = .requiredTrueExpectedOnPath := by
  unfold headerEntryStep at h
  split at h
  · next hph => exact (Except.error.inj h) ▸ processResponseHeader_error_kinds hph
  · exact Except.noConfusion h

theorem processResponse_error_kinds {k : String} {ro : ResponseObject} {e : ModelError}
    (h : processResponse k ro = .error e) :
    e = .invalidStatusCodePattern (normalizeResponseKey k) ∨
      e = .allowEmptyValueOnlyOnQuery ∨ e = .requiredTrueExpectedOnPath := by
  unfold processResponse at h
  split at h
  · exact Or.inl (Except.error.inj h).symm
  · split at h
    · next e2 hm =>
      obtain ⟨p, _, hp⟩ := mapM_error_mem _ _ _ hm
      exact Or.inr ((Except.error.inj h) ▸ headerEntryStep_error_kinds hp)
    · exact Except.noConfusion h

theorem processResponse_error_of_invalid {k : String} {ro : ResponseObject}
    (hv : validStatusKey (normalizeResponseKey k) = false) :
    processResponse k ro = .error (.invalidStatusCodePattern (normalizeResponseKey k)) := by
  unfold processResponse
  rw [if_pos]
  rw [hv]
  rfl

theorem headerStamp_forall {l : List (String × HeaderObject)}
    {out : List ((String × HeaderObject) × ModelHeader)}
    (hf : List.Forall₂ (fun p q => headerEntryStep p = Except.ok q) l out) :
    out.map Prod.fst = l.map stampHeaderEntry := by
  induction hf with
  | @cons p q l2 out2 hab _ ih =>
    unfold headerEntryStep at hab
    simp only [List.map_cons, ih]
    cases hph : processResponseHeader p.1 p.2 with
    | error e => rw [hph] at hab; exact Except.noConfusion hab
    | ok r =>
      rw [hph] at hab
      simp only [Except.ok.injEq] at hab
      have hr2 : r.2 = { p.2 with name := some p.1, location := some Location.header } :=
        processResponseHeader_ok_stamp (by rw [hph])
      rw [← hab]
      show ((p.1, r.2) : String × HeaderObject) :: _ = stampHeaderEntry p :: _
      rw [hr2]
      rfl
  | nil => rfl

theorem processResponse_ok_inv {k : String} {ro : ResponseObject}
    {r : Response} {ro2 : ResponseObject}
    (h : processResponse k ro = .ok (r, ro2)) :
    r.key = normalizeResponseKey k ∧ validStatusKey (normalizeResponseKey k) = true ∧
      ro2 = stampResponseObject ro := by
  unfold processResponse at h
  split at h
  · exact Except.noConfusion h
  · next hvpos =>
    split at h
    · exact Except.noConfusion h
    · next processed hm =>
      have hinj := Except.ok.inj h
      rw [Prod.mk.injEq] at hinj
      obtain ⟨hr, hro2⟩ := hinj
      refine ⟨by rw [← hr], ?_, ?_⟩
      · cases hvk : validStatusKey (normalizeResponseKey k)
        · rw [hvk] at hvpos; exact absurd rfl hvpos
        · rfl
      · have hstamp := headerStamp_forall (mapM_ok_forall _ _ _ hm)
        rw [← hro2]
        unfold stampResponseObject
        cases hh : ro.headers with
        | none => rfl
        | some hl =>
          rw [hh] at hstamp
          simp only [Option.getD_some] at hstamp
          simp only [hstamp]
          rfl

theorem buildCore_ok_inv :
    ∀ {rs : List (String × ResponseObject)}
      {core : List ((String × ResponseObject) × Response)},
      buildResponsesCore rs = .ok core →
      core.map (fun x => x.2.key) = rs.map (fun p => normalizeResponseKey p.1) ∧
      core.map Prod.fst = rs.map (fun p => (p.1, stampResponseObject p.2)) := by
  intro rs
  induction rs with
  | nil =>
    intro core h
    replace h : (Except.ok [] : Except ModelError _) = .ok core := h
    rw [← Except.ok.inj h]
    exact ⟨rfl, rfl⟩
  | cons p rest ih =>
    intro core h
    obtain ⟨k, ro⟩ := p
    unfold buildResponsesCore at h
    split at h
    · exact Except.noConfusion h
    · next r2 hpr =>
      split at h
      · exact Except.noConfusion h
      · next tail htail =>
        obtain ⟨hkey, _, hstamp⟩ := processResponse_ok_inv
          (show processResponse k ro = .ok (r2.1, r2.2) by rw [hpr])
        obtain ⟨ih1, ih2⟩ := ih htail
        rw [← Except.ok.inj h]
        constructor
        · simp only [List.map_cons, ih1, hkey]
        · simp only [List.map_cons, ih2, hstamp]

theorem buildCore_error_kinds :
    ∀ {rs : List (String × ResponseObject)} {e : ModelError},
      buildResponsesCore rs = .error e →
      e = .allowEmptyValueOnlyOnQuery ∨ e = .requiredTrueExpectedOnPath ∨
        ∃ kk, e = .invalidStatusCodePattern kk := by
  intro rs
  induction rs with
  | nil => intro e h; exact Except.noConfusion h
  | cons p rest ih =>
    intro e h
    obtain ⟨k, ro⟩ := p
    unfold buildResponsesCore at h
    split at h
    · next e2 hpr =>
      have he : e2 = e := Except.error.inj h
      subst he
      rcases processResponse_error_kinds hpr with h1 | h1 | h1
      · exact Or.inr (Or.inr ⟨_, h1⟩)
      · exact Or.inl h1
      · exact Or.inr (Or.inl h1)
    · next r2 hpr =>
      split at h
      · next e2 htail =>
        have he : e2 = e := Except.error.inj h
        subst he
        exact ih htail
      · exact Except.noConfusion h

theorem buildCore_isOk_false {rs : List (String × ResponseObject)}
    (hbad : ∃ p ∈ rs, validStatusKey (normalizeResponseKey p.1) = false) :
    (buildResponsesCore rs).isOk = false := by
  induction rs with
  | nil => obtain ⟨p, hp, _⟩ := hbad; cases hp
  | cons q rest ih =>
    obtain ⟨k, ro⟩ := q
    unfold buildResponsesCore
    rcases hbad with ⟨p, hpmem, hpbad⟩
    rcases List.mem_cons.mp hpmem with rfl | hmem
    · rw [processResponse_error_of_invalid hpbad]
      rfl
    · cases hpr : processResponse k ro with
      | error e => rfl
      | ok r2 =>
        have hko := ih ⟨p, hmem, hpbad⟩
        cases htail : buildResponsesCore rest with
        | error e => rfl
        | ok tail => rw [htail] at hko; exact absurd hko (by simp [Except.isOk, Except.toBool])

theorem processOperation_ok_inv {path : Path} {ps pd : Option String} {psv : List Server}
    {pparams : List Parameter} {op : OperationObject} {m : Method} {op2 : OperationObject}
    (h : processOperation path ps pd psv pparams op = .ok (m, op2)) :
    ∃ osv ops core,
      parseServers op.servers = .ok osv ∧
      parseParameters op.parameters = .ok ops ∧
      checkParameters pparams = true ∧
      sameStringLists
        (sortStrings (((mergeParams pparams (ops.getD [])).filter fun x =>
          x.location == Location.path).map fun x => x.name))
        (sortStrings (templateParamNames path)) = true ∧
      buildResponsesCore op.responses = .ok core ∧
      m = { urlSuffix := path, tags := op.tags.getD [],
            summary := jsOrStr op.summary ps, description := jsOrStr op.description pd,
            externalDocs := op.externalDocs, operationId := op.operationId,
            responses := sortResponses (core.map Prod.snd),
            parameters := mergeParams pparams (ops.getD []),
            deprecated := op.deprecated.getD false,
            servers := osv.getD psv } ∧
      op2 = { op with responses := core.map Prod.fst } := by
  unfold processOperation at h
  split at h
  · exact Except.noConfusion h
  · next osv hsv =>
    split at h
    · exact Except.noConfusion h
    · next ops hps =>
      split at h
      · exact Except.noConfusion h
      · next hchk =>
        split at h
        · exact Except.noConfusion h
        · next hsame =>
          split at h
          · exact Except.noConfusion h
          · next core hcore =>
            have hinj := Except.ok.inj h
            rw [Prod.mk.injEq] at hinj
            refine ⟨osv, ops, core, hsv, hps, ?_, ?_, hcore, hinj.1.symm, hinj.2.symm⟩
            · cases hcb : checkParameters pparams
              · rw [hcb] at hchk; exact absurd rfl hchk
              · rfl
            · cases hsb : sameStringLists
                  (sortStrings (((mergeParams pparams (ops.getD [])).filter fun x =>
                    x.location == Location.path).map fun x => x.name))
                  (sortStrings (templateParamNames path))
              · rw [hsb] at hsame; exact absurd rfl hsame
              · rfl

/-- C4: for every operation, a declared response key `default` is rewritten
to `XXX`; every key whose normalized form fails the 3-character digit/`X`
pattern makes the run throw; and on success the operation's final response
list is ordered ascending by the count of `X` characters in the normalized
key (so `200` precedes `2XX` precedes `XXX`), its multiset of keys being
exactly the normalized declared keys. -/
theorem claim4_response_normalization :
    (∀ (path : Path) (ps pd : Option String) (psv : List Server) (pparams : List Parameter)
       (op : OperationObject) (m : Method) (op2 : OperationObject),
       processOperation path ps pd psv pparams op = .ok (m, op2) →
       List.Sorted respLE m.responses ∧
       (m.responses.map Response.key).Perm (op.responses.map fun p => normalizeResponseKey p.1)) ∧
    (∀ (path : Path) (ps pd : Option String) (psv : List Server) (pparams : List Parameter)
       (op : OperationObject),
       (∃ p ∈ op.responses, validStatusKey (normalizeResponseKey p.1) = false) →
       (processOperation path ps pd psv pparams op).isOk = false) := by
  constructor
  · intro path ps pd psv pparams op m op2 h
    obtain ⟨osv, ops, core, _, _, _, _, hcore, hm, _⟩ := processOperation_ok_inv h
    have hkeys := (buildCore_ok_inv hcore).1
    constructor
    · rw [hm]
      exact List.sorted_insertionSort respLE (core.map Prod.snd)
    · rw [hm]
      show ((sortResponses (core.map Prod.snd)).map Response.key).Perm _
      have hperm := (List.perm_insertionSort respLE (core.map Prod.snd)).map Response.key
      refine hperm.trans (List.Perm.of_eq ?_)
      rw [List.map_map]
      exact hkeys
  · intro path ps pd psv pparams op hbad
    unfold processOperation
    split
    · rfl
    · split
      · rfl
      · split
        · rfl
        · split
          · rfl
          · split
            · rfl
            · next core heq =>
              have hko := buildCore_isOk_false hbad
              rw [heq] at hko
              exact absurd hko (by simp [Except.isOk, Except.toBool])

/-- C9, counterexample to the original claim: an operation declaring the
response keys `404` and then `200` does NOT keep that relative order.  Both
keys are canonical array indices, so `Object.keys` enumerates the declared
map as `200` then `404`; the response loop builds the responses in that
enumeration order and the stable sort keeps it (the wildcard counts are
equal), so the final list is `200` before `404` -- the reverse of the
declaration order asserted by the claim. -/
theorem claim9_counterexample :
    opTwoLiteralResponses.responses = [("404", emptyResponse), ("200", emptyResponse)] ∧
    jsKeysOrder opTwoLiteralResponses.responses =
      [("200", emptyResponse), ("404", emptyResponse)] ∧
    buildResponsesCore (jsKeysOrder opTwoLiteralResponses.responses) =
      .ok [(("200", emptyResponse), { key := "200", description := none, headers := [] }),
           (("404", emptyResponse), { key := "404", description := none, headers := [] })] ∧
    countX "200" = countX "404" ∧
    sortResponses
        [{ key := "200", description := none, headers := ([] : List ModelHeader) },
         { key := "404", description := none, headers := [] }] =
      [{ key := "200", description := none, headers := [] },
       { key := "404", description := none, headers := [] }] ∧
    [({ key := "200", description := none, headers := ([] : List ModelHeader) } : Response),
     { key := "404", description := none, headers := [] }] ≠
      [{ key := "404", description := none, headers := [] },
       { key := "200", description := none, headers := [] }] := by
  refine ⟨rfl, by decide, by decide, by decide, by decide, by decide⟩

/-- C9 (amended): responses whose normalized status keys contain the same
number of `X` wildcard characters appear in the final, sorted response list
in the order `Object.keys` enumerates them (`jsKeysOrder`: array-index-like
literal status codes first, ascending numerically, then the remaining keys
in declaration order), because the sort comparator only inspects the
wildcard count and the sort is stable.  The raw declaration order is NOT
preserved for literal codes: declaring `404` before `200` still yields
`200` before `404`, as the counterexample above shows. -/
theorem claim9_equal_wildcards_stable (rs : List (String × ResponseObject))
    (core : List ((String × ResponseObject) × Response))
    (_hbuild : buildResponsesCore (jsKeysOrder rs) = .ok core) (a b : Response)
    (hsub : List.Sublist [a, b] (core.map Prod.snd))
    (hcnt : countX a.key = countX b.key) :
    List.Sublist [a, b] (sortResponses (core.map Prod.snd)) :=
  List.pair_sublist_insertionSort (Nat.le_of_eq hcnt) hsub

theorem sameStringLists_iff : ∀ (a b : List String), sameStringLists a b = true ↔ a = b
  | [], [] => by simp [sameStringLists]
  | [], y :: ys => by simp [sameStringLists]
  | x :: xs, [] => by simp [sameStringLists]
  | x :: xs, y :: ys => by
    have ih := sameStringLists_iff xs ys
    unfold sameStringLists at *
    simp only [List.length_cons, List.zip_cons_cons, List.all_cons, Bool.and_eq_true,
      beq_iff_eq, List.cons.injEq] at *
    constructor
    · rintro ⟨hlen, hxy, hall⟩
      exact ⟨hxy, ih.mp ⟨by omega, hall⟩⟩
    · rintro ⟨hxy, hxs⟩
      obtain ⟨hlen, hall⟩ := ih.mpr hxs
      exact ⟨by omega, hxy, hall⟩

/-- C6: once the merge stage is reached (operation servers and parameters
parse, and the re-checked path parameter list passes), the operation throws
"path parameters mismatch" exactly when the sorted list of names of merged
parameters with `path` location differs from the sorted list of placeholder
names of the parsed path template; when the two sorted lists are equal the
assembly never produces this error. -/
theorem claim6_path_parameter_crosscheck (path : Path) (ps pd : Option String)
    (psv : List Server) (pparams : List Parameter) (op : OperationObject)
    (osv : Option (List Server)) (ops : Option (List Parameter))
    (h1 : parseServers op.servers = .ok osv)
    (h2 : parseParameters op.parameters = .ok ops)
    (h3 : checkParameters pparams = true) :
    processOperation path ps pd psv pparams op = .error .pathParametersMismatch ↔
      sortStrings (((mergeParams pparams (ops.getD [])).filter fun x =>
        x.location == Location.path).map fun x => x.name)
      ≠ sortStrings (templateParamNames path) := by
  unfold processOperation
  rw [h1, h2, h3]
  simp only [Bool.not_true, Bool.false_eq_true, if_false]
  cases hss : sameStringLists
      (sortStrings (((mergeParams pparams (ops.getD [])).filter fun x =>
        x.location == Location.path).map fun x => x.name))
      (sortStrings (templateParamNames path)) with
  | false =>
    simp only [Bool.not_false, if_true]
    constructor
    · intro _ hEq
      rw [(sameStringLists_iff _ _).mpr hEq] at hss
      exact Bool.noConfusion hss
    · intro _
      trivial
  | true =>
    simp only [Bool.not_true, Bool.false_eq_true, if_false]
    constructor
    · intro hcontra
      exfalso
      cases hbc : buildResponsesCore op.responses with
      | error e =>
        rw [hbc] at hcontra
        have he := Except.error.inj hcontra
        rcases buildCore_error_kinds hbc with h9 | h9 | ⟨kk, h9⟩ <;> rw [h9] at he <;>
          exact ModelError.noConfusion he
      | ok core =>
        rw [hbc] at hcontra
        exact Except.noConfusion hcontra
    · intro hne
      exact absurd ((sameStringLists_iff _ _).mp hss) hne

theorem getOp_setOp (pi : PathItemObject) (m : HttpMethod) (o : OperationObject)
    (mm : HttpMethod) :
    getOp (setOp pi m o) mm = if mm = m then some o else getOp pi mm := by
  cases m <;> cases mm <;> rfl

/-- With an empty effective path-server list, the operations loop only ever
produces zero-server Methods, provided none of the remaining operations
declares a servers field (the `operationServers || pathServers` fallback of
modeler.ts line 171 then always lands on the empty path-server list). -/
theorem opsLoop_servers_empty (path : Path) (ps pd : Option String)
    (pparams : List Parameter) :
    ∀ (ms : List HttpMethod) (acc : List Method) (pi : PathItemObject)
      (out : List Method × PathItemObject),
      (∀ (mm : HttpMethod) (op : OperationObject), getOp pi mm = some op → op.servers = none) →
      (∀ m ∈ acc, m.servers = []) →
      opsLoop path ps pd [] pparams ms acc pi = .ok out →
      ∀ m ∈ out.1, m.servers = [] := by
  intro ms
  induction ms with
  | nil =>
    intro acc pi out _ hacc h
    replace h : (Except.ok (acc, pi) : Except ModelError (List Method × PathItemObject)) =
      .ok out := h
    rw [← Except.ok.inj h]
    exact hacc
  | cons mh rest ih =>
    intro acc pi out hops hacc h
    unfold opsLoop at h
    cases hg : getOp pi mh with
    | none =>
      rw [hg] at h
      exact ih acc pi out hops hacc h
    | some op =>
      rw [hg] at h
      replace h : (match processOperation path ps pd [] pparams op with
          | Except.error e => Except.error e
          | Except.ok mo => opsLoop path ps pd [] pparams rest (acc ++ [mo.1])
              (setOp pi mh mo.2)) = Except.ok out := h
      cases hpo : processOperation path ps pd [] pparams op with
      | error e => rw [hpo] at h; exact Except.noConfusion h
      | ok mo =>
        rw [hpo] at h
        obtain ⟨osv, ops, core, hsv, _, _, _, _, hm, hop2⟩ := processOperation_ok_inv hpo
        have hms : mo.1.servers = [] := by
          rw [hops mh op hg] at hsv
          have hosv : (none : Option (List Server)) = osv := Except.ok.inj hsv
          rw [hm]
          show osv.getD [] = []
          rw [← hosv]
          rfl
        refine ih (acc ++ [mo.1]) (setOp pi mh mo.2) out ?_ ?_ h
        · intro mm op2 hgg
          rw [getOp_setOp] at hgg
          by_cases hmm : mm = mh
          · rw [if_pos hmm] at hgg
            have hoe : mo.2 = op2 := Option.some.inj hgg
            rw [← hoe, hop2]
            exact hops mh op hg
          · rw [if_neg hmm] at hgg
            exact hops mm op2 hgg
        · intro m hmem
          rcases List.mem_append.mp hmem with hm1 | hm2
          · exact hacc m hm1
          · rw [List.mem_singleton.mp hm2]
            exact hms

/-- C8: an explicitly declared empty server list is truthy and
short-circuits the fallback chain: `parseServers` maps it to `some []`, an
operation declaring `servers: []` yields a Method with zero servers, the
document-level list always ends up non-empty (a synthetic `/` server is
pushed when it is empty), and a path item declaring `servers: []` whose
operations leave their servers fields absent yields only zero-server
Methods: the absent operation lists fall back to the path item's empty
(truthy) list, never to the document-level servers. -/
theorem claim8_empty_server_list :
    parseServers (some ([] : List ServerObject)) = .ok (some []) ∧
    (∀ (path : Path) (ps pd : Option String) (psv : List Server) (pparams : List Parameter)
       (op : OperationObject) (m : Method) (op2 : OperationObject),
       op.servers = some [] →
       processOperation path ps pd psv pparams op = .ok (m, op2) → m.servers = []) ∧
    (∀ (o : Option (List ServerObject)) (s : List Server),
       effectiveDocServers o = .ok s → s ≠ []) ∧
    (∀ (ds : List Server) (raw : String) (pi : PathItemObject)
       (out : List Method × PathItemObject),
       pi.servers = some [] →
       (∀ (mm : HttpMethod) (op : OperationObject), getOp pi mm = some op → op.servers = none) →
       processPathItem ds raw pi = .ok out →
       ∀ m ∈ out.1, m.servers = []) := by
  refine ⟨rfl, ?_, ?_, ?_⟩
  · intro path ps pd psv pparams op m op2 hemp h
    obtain ⟨osv, ops, core, hsv, _, _, _, _, hm, _⟩ := processOperation_ok_inv h
    rw [hemp] at hsv
    have hosv : some ([] : List Server) = osv := Except.ok.inj hsv
    rw [hm]
    show osv.getD psv = []
    rw [← hosv]
    rfl
  · intro o s h
    unfold effectiveDocServers at h
    split at h
    · exact Except.noConfusion h
    · next parsed hpd =>
      split at h
      · split at h
        · exact Except.noConfusion h
        · next p hp =>
          have hs := Except.ok.inj h
          intro hcontra
          rw [← hs] at hcontra
          simp at hcontra
      · next hlen =>
        have hs := Except.ok.inj h
        intro hcontra
        rw [← hs] at hcontra
        rw [hcontra] at hlen
        simp at hlen
  · intro ds raw pi out hemp hops h
    unfold processPathItem at h
    split at h
    · exact Except.noConfusion h
    · next path hpp =>
      split at h
      · exact Except.noConfusion h
      · next psv hsv =>
        split at h
        · exact Except.noConfusion h
        · next pps hps =>
          split at h
          · exact Except.noConfusion h
          · next hchk =>
            rw [hemp] at hsv
            have hpsv : some ([] : List Server) = psv := Except.ok.inj hsv
            rw [← hpsv] at h
            exact opsLoop_servers_empty path pi.summary pi.description (pps.getD [])
              httpMethods [] pi out hops (fun m hm => absurd hm (List.not_mem_nil m)) h

/-! ### The document-side effect of the modeler (claim C2) -/

theorem processOperation_ok_stamp {path : Path} {ps pd : Option String} {psv : List Server}
    {pparams : List Parameter} {op : OperationObject} {m : Method} {op2 : OperationObject}
    (h : processOperation path ps pd psv pparams op = .ok (m, op2)) :
    op2 = stampOperationObject op := by
  obtain ⟨osv, ops, core, _, _, _, _, hcore, _, hop2⟩ := processOperation_ok_inv h
  rw [hop2]
  unfold stampOperationObject
  rw [(buildCore_ok_inv hcore).2]

theorem opsLoop_ok_stamp (path : Path) (ps pd : Option String) (psv : List Server)
    (pparams : List Parameter) :
    ∀ (ms : List HttpMethod) (acc : List Method) (pi : PathItemObject)
      (out : List Method × PathItemObject),
      opsLoop path ps pd psv pparams ms acc pi = .ok out → out.2 = stampOnMethods ms pi := by
  intro ms
  induction ms with
  | nil =>
    intro acc pi out h
    replace h : (Except.ok (acc, pi) : Except ModelError (List Method × PathItemObject)) =
      .ok out := h
    rw [← Except.ok.inj h]
    rfl
  | cons m rest ih =>
    intro acc pi out h
    unfold opsLoop at h
    unfold stampOnMethods
    cases hg : getOp pi m with
    | none =>
      rw [hg] at h
      exact ih _ _ _ h
    | some op =>
      rw [hg] at h
      replace h : (match processOperation path ps pd psv pparams op with
          | Except.error e => Except.error e
          | Except.ok mo => opsLoop path ps pd psv pparams rest (acc ++ [mo.1])
              (setOp pi m mo.2)) = Except.ok out := h
      show out.2 = stampOnMethods rest (setOp pi m (stampOperationObject op))
      cases hpo : processOperation path ps pd psv pparams op with
      | error e => rw [hpo] at h; exact Except.noConfusion h
      | ok mo =>
        rw [hpo] at h
        have hst : mo.2 = stampOperationObject op := processOperation_ok_stamp hpo
        have hout := ih (acc ++ [mo.1]) (setOp pi m mo.2) out h
        rw [hout, hst]

theorem stampOnMethods_full (pi : PathItemObject) :
    stampOnMethods httpMethods pi = stampPathItem pi := by
  obtain ⟨s, d, g, pu, po, de, oo, he, pa, tr, sv, pr⟩ := pi
  rcases g with _ | g <;> rcases pu with _ | pu <;> rcases po with _ | po <;>
    rcases de with _ | de <;> rcases oo with _ | oo <;> rcases he with _ | he <;>
    rcases pa with _ | pa <;> rcases tr with _ | tr <;> rfl

theorem processPathItem_ok_stamp {ds : List Server} {raw : String} {pi : PathItemObject}
    {out : List Method × PathItemObject}
    (h : processPathItem ds raw pi = .ok out) : out.2 = stampPathItem pi := by
  unfold processPathItem at h
  split at h
  · exact Except.noConfusion h
  · split at h
    · exact Except.noConfusion h
    · split at h
      · exact Except.noConfusion h
      · split at h
        · exact Except.noConfusion h
        · rw [← stampOnMethods_full pi]
          exact opsLoop_ok_stamp _ _ _ _ _ _ _ _ _ h

theorem pathsLoop_ok_stamp (ds : List Server) :
    ∀ (rs : List (String × PathItemObject)) (ops : List Method)
      (acc : List (String × PathItemObject)) (out),
      pathsLoop ds rs ops acc = .ok out →
      out.2 = acc ++ rs.map (fun p => (p.1, stampPathItem p.2)) := by
  intro rs
  induction rs with
  | nil =>
    intro ops acc out h
    replace h : (Except.ok (ops, acc) :
      Except ModelError (List Method × List (String × PathItemObject))) = .ok out := h
    rw [← Except.ok.inj h]
    simp
  | cons p rest ih =>
    intro ops acc out h
    obtain ⟨raw, pi⟩ := p
    unfold pathsLoop at h
    split at h
    · exact Except.noConfusion h
    · next mp hpp =>
      have h2 := ih _ _ _ h
      rw [h2, processPathItem_ok_stamp hpp]
      simp

/-- C2 (amended): `run` is not a pure function of the document graph: on
every successful run the returned graph is the input graph with each
response header node stamped in place (`name` receives the header's map
key, `in` receives "header"), and nothing else is changed.  A document
whose responses declare no headers therefore passes through unchanged. -/
theorem claim2_run_mutates_only_headers (d : OpenAPIObject) (m : Model) (d2 : OpenAPIObject)
    (h : run d = .ok (m, d2)) : d2 = stampDocument d := by
  unfold run at h
  split at h
  · exact Except.noConfusion h
  · split at h
    · exact Except.noConfusion h
    · split at h
      · exact Except.noConfusion h
      · next op2 hpl =>
        have hinj := Except.ok.inj h
        rw [Prod.mk.injEq] at hinj
        rw [← hinj.2]
        have hp := pathsLoop_ok_stamp _ _ _ _ _ hpl
        show ({ d with paths := op2.2 } : OpenAPIObject) = stampDocument d
        rw [hp]
        simp [stampDocument]

/-- C2 counterexample: on `docWithHeader` the modeler succeeds but returns a
document different from its input -- the header node `X-Rate` has been
mutated (its `name` and `in` properties were written). -/
theorem claim2_counterexample :
    (run docWithHeader).isOk = true ∧
    (run docWithHeader).toOption.map Prod.snd ≠ some docWithHeader :=
  ⟨by decide, by decide⟩

/-- C2 witness: the amended description applied to `docWithHeader`. -/
theorem claim2_witness :
    (run docWithHeader).isOk = true ∧
    (run docWithHeader).toOption.map Prod.snd = some (stampDocument docWithHeader) := by
  refine ⟨by decide, ?_⟩
  cases hr : run docWithHeader with
  | error e =>
    have hko : (run docWithHeader).isOk = true := by decide
    rw [hr] at hko
    exact absurd hko (by simp [Except.isOk, Except.toBool])
  | ok p =>
    have hstamp := claim2_run_mutates_only_headers docWithHeader p.1 p.2 (by rw [hr])
    show some p.2 = some (stampDocument docWithHeader)
    rw [hstamp]

/-- C1 (code bug): a duplicate `(name, location)` key in the path-level
list makes `run` throw "invalid path parameters", but a duplicate in the
operation-level list alone does NOT make `run` throw: modeler.ts line 173
re-checks `pathParameters` instead of `operationParameters` (the thrown
message "invalid operation parameters" shows the intent).  Here the
operation-level list parses to a list that fails `checkParameters`, yet
`run` succeeds. -/
theorem claim1_operation_duplicates_not_checked :
    run docPathParamDup = .error .invalidPathParameters ∧
    parseParameters (some [queryParam "a", queryParam "a"]) =
      .ok (some [{ name := "a", location := .query, description := none, required := false,
                   deprecated := false, locationQueryAllowEmptyValue := none },
                 { name := "a", location := .query, description := none, required := false,
                   deprecated := false, locationQueryAllowEmptyValue := none }]) ∧
    checkParameters [{ name := "a", location := .query, description := none, required := false,
                       deprecated := false, locationQueryAllowEmptyValue := none },
                     { name := "a", location := .query, description := none, required := false,
                       deprecated := false, locationQueryAllowEmptyValue := none }] = false ∧
    (run docOpParamDup).isOk = true := by
  refine ⟨by decide, by decide, by decide, by decide⟩

/-- C3 (amended): the normalized style is the declared style when present,
else `form` for query/cookie and `simple` otherwise; but the normalized
`explode` is `true` exactly when `explode: true` was declared OR the
effective style is `form` -- the JavaScript `obj.explode || (style ===
"form")` treats a declared `explode: false` like an absent one, so a
parameter declaring `explode: false` under effective style `form` is
normalized with `explode = true`, not `false`.  The inline computation of
`parseParameterBase` agrees with `normalizeFormat`. -/
theorem claim3_format_normalization :
    (∀ (loc : Location) (st : Option Style) (ex : Option Bool),
      (normalizeFormat loc st ex).style =
        st.getD (if loc == .query || loc == .cookie then .form else .simple) ∧
      ((normalizeFormat loc st ex).explode = true ↔
        ex = some true ∨ (normalizeFormat loc st ex).style = .form)) ∧
    (∀ p : ParameterObject, parameterBaseFormat p = normalizeFormat p.location p.style p.explode) := by
  refine ⟨?_, fun p => rfl⟩
  intro loc st ex
  refine ⟨rfl, ?_⟩
  rcases ex with _ | b
  · simp [normalizeFormat, jsOrBool, beq_iff_eq]
  · cases b
    · simp [normalizeFormat, jsOrBool, beq_iff_eq]
    · simp [normalizeFormat, jsOrBool]

/-- C3 counterexample: a query parameter with no declared style and a
declared `explode: false` is normalized to style `form` with
`explode = true`, not the declared `false`. -/
theorem claim3_counterexample :
    normalizeFormat Location.query none (some false) =
      { style := Style.form, explode := true } ∧
    (parameterBaseFormat { queryParam "x" with explode := some false }).explode = true :=
  ⟨rfl, rfl⟩

/-! ### Reference resolver lemmas (claims C7 and C10) -/

theorem firstSegment_hash (r : String) :
    jsStartsWithHash (refFirstSegment r).data = jsStartsWithHash r.data := by
  show jsStartsWithHash ((splitOnCharCL '/' r.data).headD []) = jsStartsWithHash r.data
  cases hr : r.data with
  | nil => rfl
  | cons c cs =>
    by_cases hc : c = '/'
    · subst hc
      show jsStartsWithHash ((splitAux '/' ('/' :: cs)).1) = jsStartsWithHash ('/' :: cs)
      rw [splitAux_cons_eq, if_pos rfl]
      rfl
    · show jsStartsWithHash ((splitAux '/' (c :: cs)).1) = jsStartsWithHash (c :: cs)
      rw [splitAux_cons_eq, if_neg hc]
      rfl

theorem getAtPath_error_kind :
    ∀ (p : List String) (j : Json) (e : ResolveError),
      getAtPath j p = .error e → e = .pathResolutionFailed := by
  intro p
  induction p with
  | nil => intro j e h; exact Except.noConfusion h
  | cons k rest ih =>
    intro j e h
    unfold getAtPath at h
    split at h
    · split at h
      · exact ih _ _ h
      · exact (Except.error.inj h).symm
    · split at h
      · split at h
        · exact ih _ _ h
        · exact (Except.error.inj h).symm
      · exact (Except.error.inj h).symm
    · exact (Except.error.inj h).symm

theorem setAtPath_error_kind :
    ∀ (p : List String) (j v : Json) (e : ResolveError),
      setAtPath j p v = .error e → e = .pathResolutionFailed := by
  intro p
  induction p with
  | nil => intro j v e h; exact Except.noConfusion h
  | cons k rest ih =>
    intro j v e h
    unfold setAtPath at h
    split at h
    · split at h
      · exact Except.noConfusion h
      · split at h
        · split at h
          · next e2 hrec =>
            have he : e2 = e := Except.error.inj h
            subst he
            exact ih _ _ _ hrec
          · exact Except.noConfusion h
        · exact (Except.error.inj h).symm
    · split at h
      · split at h
        · split at h
          · exact Except.noConfusion h
          · exact (Except.error.inj h).symm
        · split at h
          · split at h
            · next e2 hrec =>
              have he : e2 = e := Except.error.inj h
              subst he
              exact ih _ _ _ hrec
            · split at h
              · exact Except.noConfusion h
              · exact (Except.error.inj h).symm
          · exact (Except.error.inj h).symm
      · exact (Except.error.inj h).symm
    · exact (Except.error.inj h).symm

theorem resolveStep_error_of_bad {doc : Json} {hit : List String × Json}
    (hbad : ∃ s, hit.2 = .str s ∧ jsStartsWithHash (refFirstSegment s).data = false) :
    resolveStep doc hit = .error .invalidLocalReference := by
  obtain ⟨s, hs, hbad2⟩ := hbad
  have hb : jsStartsWithHash ((splitOnCharCL '/' s.data).headD []) = false := hbad2
  unfold resolveStep
  rw [hs]
  simp only [hb, Bool.not_false, if_true]

theorem resolveStep_error_not_local {doc : Json} {hit : List String × Json} {e : ResolveError}
    (hgood : ∃ s, hit.2 = .str s ∧ jsStartsWithHash (refFirstSegment s).data = true)
    (h : resolveStep doc hit = .error e) : e ≠ .invalidLocalReference := by
  obtain ⟨s, hs, hgood2⟩ := hgood
  have hb : jsStartsWithHash ((splitOnCharCL '/' s.data).headD []) = true := hgood2
  unfold resolveStep at h
  rw [hs] at h
  replace h : (if !(jsStartsWithHash ((splitOnCharCL '/' s.data).headD [])) then
      (Except.error ResolveError.invalidLocalReference : Except ResolveError Json)
    else
      match setAtPath doc (refSegments s ++ ["$path"])
          (.arr (jsonsOfStrings (refSegments s))) with
      | .error e => .error e
      | .ok doc1 =>
        match getAtPath doc1 (refSegments s) with
        | .error e => .error e
        | .ok src => setAtPath doc1 hit.1 src) = .error e := h
  rw [hb] at h
  simp only [Bool.not_true, Bool.false_eq_true, if_false] at h
  split at h
  · next e2 hset =>
    have he : e2 = e := Except.error.inj h
    subst he
    rw [setAtPath_error_kind _ _ _ _ hset]
    decide
  · split at h
    · next e2 hget =>
      have he : e2 = e := Except.error.inj h
      subst he
      rw [getAtPath_error_kind _ _ _ hget]
      decide
    · rw [setAtPath_error_kind _ _ _ _ h]
      decide

theorem foldl_resolveStep_bad (hits : List (List String × Json)) :
    ∀ doc : Json,
      (∃ hit ∈ hits, ∃ s, hit.2 = .str s ∧
        jsStartsWithHash (refFirstSegment s).data = false) →
      (hits.foldlM resolveStep doc).isOk = false := by
  induction hits with
  | nil => intro doc hbad; obtain ⟨hit, hmem, _⟩ := hbad; cases hmem
  | cons hhead rest ih =>
    intro doc hbad
    rw [List.foldlM_cons]
    rcases hbad with ⟨hit, hmem, hbadhit⟩
    rcases List.mem_cons.mp hmem with rfl | hmem2
    · rw [resolveStep_error_of_bad hbadhit]
      rfl
    · cases hstep : resolveStep doc hhead with
      | error e => rfl
      | ok doc1 =>
        simp only [exc_bind_ok]
        exact ih doc1 ⟨hit, hmem2, hbadhit⟩

theorem foldl_resolveStep_good (hits : List (List String × Json)) :
    ∀ doc : Json,
      (∀ hit ∈ hits, ∃ s, hit.2 = .str s ∧
        jsStartsWithHash (refFirstSegment s).data = true) →
      hits.foldlM resolveStep doc ≠ .error .invalidLocalReference := by
  induction hits with
  | nil => intro doc _ hcontra; exact Except.noConfusion hcontra
  | cons hhead rest ih =>
    intro doc hgood
    rw [List.foldlM_cons]
    cases hstep : resolveStep doc hhead with
    | error e =>
      simp only [exc_bind_error]
      intro hcontra
      have he : e = .invalidLocalReference := Except.error.inj hcontra
      exact resolveStep_error_not_local (hgood hhead (List.mem_cons_self _ _)) hstep he
    | ok doc1 =>
      simp only [exc_bind_ok]
      exact ih doc1 fun hit hm => hgood hit (List.mem_cons_of_mem _ hm)

/-- C7: a reference string processed by `resolve` whose first `/`-separated
segment does not start with `#` -- equivalently, a reference string that
does not begin with `#` -- makes `resolve` throw; when every processed
reference begins with `#`, `resolve` never raises the
"invalid syntax of local reference" error. -/
theorem claim7_nonlocal_refs_rejected :
    (∀ r : String, jsStartsWithHash (refFirstSegment r).data = jsStartsWithHash r.data) ∧
    (∀ doc : Json,
      (∃ hit ∈ collectRefs doc, ∃ s, hit.2 = .str s ∧
        jsStartsWithHash (refFirstSegment s).data = false) →
      (resolve doc).isOk = false) ∧
    (∀ doc : Json,
      (∀ hit ∈ collectRefs doc, ∃ s, hit.2 = .str s ∧
        jsStartsWithHash (refFirstSegment s).data = true) →
      resolve doc ≠ .error .invalidLocalReference) :=
  ⟨firstSegment_hash,
   fun doc hbad => foldl_resolveStep_bad (collectRefs doc) doc hbad,
   fun doc hgood => foldl_resolveStep_good (collectRefs doc) doc hgood⟩

/-- C7 witness: `jsonBadRef` carries the non-local reference `defs/x` and
resolution fails; `jsonGoodRef` carries the local reference `#/t` and
resolution never reports an invalid local reference. -/
theorem claim7_witness :
    jsStartsWithHash (refFirstSegment "#/t").data = jsStartsWithHash ("#/t" : String).data ∧
    (resolve jsonBadRef).isOk = false ∧
    resolve jsonGoodRef ≠ .error .invalidLocalReference := by
  refine ⟨claim7_nonlocal_refs_rejected.1 "#/t",
          claim7_nonlocal_refs_rejected.2.1 jsonBadRef ?_,
          claim7_nonlocal_refs_rejected.2.2 jsonGoodRef ?_⟩
  · refine ⟨(["defs", "x"], Json.str "defs/x"), ?_, "defs/x", rfl, by decide⟩
    have hc : collectRefs jsonBadRef = [(["defs", "x"], Json.str "defs/x")] := rfl
    rw [hc]
    exact List.mem_singleton.mpr rfl
  · intro hit hmem
    have hc : collectRefs jsonGoodRef = [(["defs", "x"], Json.str "#/t")] := rfl
    rw [hc] at hmem
    cases List.mem_singleton.mp hmem
    exact ⟨"#/t", rfl, by decide⟩

theorem noRef_isRefHit {j : Json} (h : noRefJ j = true) : isRefHit j = false := by
  cases j with
  | obj fs =>
    unfold noRefJ at h
    rw [Bool.and_eq_true] at h
    unfold isRefHit refFieldOf
    show (match jGet fs "$ref" with | some v => jsTruthy v | none => false) = false
    cases hjg : jGet fs "$ref" with
    | none => rfl
    | some w =>
      have hh := h.1
      rw [hjg] at hh
      simp at hh
  | null => rfl
  | bool b => rfl
  | num n => rfl
  | str s => rfl
  | arr es => rfl

mutual
theorem noRefJ_no_hits (pre : List String) (j : Json) (hn : noRefJ j = true) :
    ∀ x ∈ descendantsJ pre j, isRefHit x.2 = false := by
  cases j with
  | obj fs =>
    unfold noRefJ at hn
    rw [Bool.and_eq_true] at hn
    exact noRefF_no_hits pre fs hn.2
  | arr es => exact noRefL_no_hits pre 0 es hn
  | null => intro x hx; cases hx
  | bool b => intro x hx; cases hx
  | num n => intro x hx; cases hx
  | str s2 => intro x hx; cases hx
theorem noRefF_no_hits (pre : List String) (fs : JFields) (hn : noRefF fs = true) :
    ∀ x ∈ descendantsF pre fs, isRefHit x.2 = false := by
  cases fs with
  | nil => intro x hx; cases hx
  | cons k v t =>
    unfold noRefF at hn
    rw [Bool.and_eq_true] at hn
    intro x hx
    rcases List.mem_cons.mp hx with rfl | hx2
    · exact noRef_isRefHit hn.1
    · rcases List.mem_append.mp hx2 with hx3 | hx3
      · exact noRefJ_no_hits (pre ++ [k]) v hn.1 x hx3
      · exact noRefF_no_hits pre t hn.2 x hx3
theorem noRefL_no_hits (pre : List String) (i : Nat) (es : Jsons) (hn : noRefL es = true) :
    ∀ x ∈ descendantsL pre i es, isRefHit x.2 = false := by
  cases es with
  | nil => intro x hx; cases hx
  | cons hd t =>
    unfold noRefL at hn
    rw [Bool.and_eq_true] at hn
    intro x hx
    rcases List.mem_cons.mp hx with rfl | hx2
    · exact noRef_isRefHit hn.1
    · rcases List.mem_append.mp hx2 with hx3 | hx3
      · exact noRefJ_no_hits (pre ++ [toString i]) hd hn.1 x hx3
      · exact noRefL_no_hits pre (i + 1) t hn.2 x hx3
end

/-- C10: on a document graph containing no node with a `$ref` property,
`resolve` performs no mutation at all: the hit list is empty, the
per-reference loop body never runs, and the graph is returned unchanged. -/
theorem claim10_no_refs_no_mutation (d : Json) (h : noRefJ d = true) :
    resolve d = .ok d := by
  unfold resolve
  have hc : collectRefs d = [] := by
    unfold collectRefs
    have hf : (descendantsJ [] d).filter
        (fun h => decide (2 ≤ h.1.length) && isRefHit h.2) = [] := by
      rw [List.filter_eq_nil_iff]
      intro a ha
      rw [noRefJ_no_hits [] d h a ha]
      simp
    rw [hf]
    rfl
  rw [hc]
  rfl

/-- C10 witness: a concrete `$ref`-free document passes through `resolve`
unchanged. -/
theorem claim10_witness : noRefJ jsonPlain = true ∧ resolve jsonPlain = .ok jsonPlain :=
  ⟨rfl, claim10_no_refs_no_mutation jsonPlain rfl⟩

/-- C4 witness: the operation declaring `default`, `200`, `2XX` (in that
order) is assembled with responses sorted `200`, `2XX`, `XXX`, the key
multiset being the normalized declared keys; and an operation declaring the
key `20` fails. -/
theorem claim4_witness :
    List.Sorted respLE
      [{ key := "200", description := none, headers := [] },
       { key := "2XX", description := none, headers := [] },
       { key := "XXX", description := none, headers := [] }] ∧
    (([{ key := "200", description := none, headers := ([] : List ModelHeader) },
       { key := "2XX", description := none, headers := [] },
       { key := "XXX", description := none, headers := [] }].map Response.key).Perm
      ["XXX", "200", "2XX"]) ∧
    (processOperation pathRoot none none [] []
      { emptyOperation with responses := [("20", emptyResponse)] }).isOk = false := by
  have h := claim4_response_normalization.1 pathRoot none none [] [] opThreeResponses
    { urlSuffix := pathRoot, tags := [], summary := none, description := none,
      externalDocs := none, operationId := none,
      responses := [{ key := "200", description := none, headers := [] },
                    { key := "2XX", description := none, headers := [] },
                    { key := "XXX", description := none, headers := [] }],
      parameters := [], deprecated := false, servers := [] }
    { emptyOperation with
      responses := [("default", emptyResponse), ("200", emptyResponse),
                    ("2XX", emptyResponse)] }
    rfl
  refine ⟨h.1, h.2, ?_⟩
  exact claim4_response_normalization.2 pathRoot none none [] []
    { emptyOperation with responses := [("20", emptyResponse)] }
    ⟨("20", emptyResponse), List.mem_singleton.mpr rfl, by decide⟩

/-- C6 witness: the template `/pets/\x7bid\x7d` with no declared parameter
throws "path parameters mismatch". -/
theorem claim6_witness :
    processOperation pathPets none none [] [] emptyOperation =
      .error .pathParametersMismatch :=
  (claim6_path_parameter_crosscheck pathPets none none [] [] emptyOperation
    none none rfl rfl rfl).mpr (by decide)

/-- C8 witness: an operation with `servers: []` produces a Method with zero
servers, while the document-level server list for an absent `servers` field
is the non-empty synthetic `[/]`. -/
theorem claim8_witness :
    processOperation pathRoot none none [] [] opEmptyServers =
      .ok ({ urlSuffix := pathRoot, tags := [], summary := none, description := none,
             externalDocs := none, operationId := none, responses := [],
             parameters := [], deprecated := false, servers := [] },
           { emptyOperation with servers := some [] }) ∧
    ({ urlSuffix := pathRoot, tags := [], summary := none, description := none,
       externalDocs := none, operationId := none, responses := [],
       parameters := [], deprecated := false,
       servers := ([] : List Server) } : Method).servers = [] ∧
    effectiveDocServers none =
      .ok [{ urlPrefix := [PathComponent.const "/"], description := none,
             variablesMap := [] }] ∧
    [({ urlPrefix := [PathComponent.const "/"], description := none,
        variablesMap := [] } : Server)] ≠ [] ∧
    processPathItem
        [{ urlPrefix := [PathComponent.const "/"], description := none,
           variablesMap := [] }] "/" piEmptyServers =
      .ok ([{ urlSuffix := pathRoot, tags := [], summary := none, description := none,
              externalDocs := none, operationId := none, responses := [],
              parameters := [], deprecated := false, servers := [] }],
           piEmptyServers) ∧
    ({ urlSuffix := pathRoot, tags := [], summary := none, description := none,
       externalDocs := none, operationId := none, responses := [],
       parameters := [], deprecated := false,
       servers := ([] : List Server) } : Method).servers = ([] : List Server) := by
  refine ⟨by decide, ?_, by decide, ?_, by decide, ?_⟩
  · exact claim8_empty_server_list.2.1 pathRoot none none [] [] opEmptyServers
      _ { emptyOperation with servers := some [] } rfl rfl
  · exact claim8_empty_server_list.2.2.1 none _ rfl
  · exact claim8_empty_server_list.2.2.2
      [{ urlPrefix := [PathComponent.const "/"], description := none, variablesMap := [] }]
      "/" piEmptyServers
      ([{ urlSuffix := pathRoot, tags := [], summary := none, description := none,
          externalDocs := none, operationId := none, responses := [],
          parameters := [], deprecated := false, servers := [] }], piEmptyServers)
      rfl
      (fun mm op hgg => by
        cases mm
        case get =>
          have hoe : emptyOperation = op := Option.some.inj hgg
          rw [← hoe]
          rfl
        all_goals exact Option.noConfusion hgg)
      (by decide)
      { urlSuffix := pathRoot, tags := [], summary := none, description := none,
        externalDocs := none, operationId := none, responses := [],
        parameters := [], deprecated := false, servers := [] }
      (List.mem_singleton.mpr rfl)

/-- C9 witness: for the operation declaring `404` then `200`, the
`Object.keys` enumeration yields `200` then `404`, the response loop builds
the pair in that order, and the pair keeps that enumeration order through
the stable sort. -/
theorem claim9_witness :
    buildResponsesCore (jsKeysOrder opTwoLiteralResponses.responses) =
      .ok [(("200", emptyResponse), { key := "200", description := none, headers := [] }),
           (("404", emptyResponse), { key := "404", description := none, headers := [] })] ∧
    List.Sublist
      [{ key := "200", description := none, headers := ([] : List ModelHeader) },
       { key := "404", description := none, headers := [] }]
      (sortResponses
        ([(("200", emptyResponse), { key := "200", description := none, headers := [] }),
          (("404", emptyResponse),
            { key := "404", description := none, headers := [] })].map Prod.snd)) ∧
    sortResponses
        ([(("200", emptyResponse), { key := "200", description := none, headers := [] }),
          (("404", emptyResponse),
            { key := "404", description := none, headers := [] })].map Prod.snd) =
      [{ key := "200", description := none, headers := [] },
       { key := "404", description := none, headers := [] }] := by
  refine ⟨by decide, ?_, by decide⟩
  exact claim9_equal_wildcards_stable opTwoLiteralResponses.responses
    [(("200", emptyResponse), { key := "200", description := none, headers := [] }),
     (("404", emptyResponse), { key := "404", description := none, headers := [] })]
    (by decide)
    { key := "200", description := none, headers := [] }
    { key := "404", description := none, headers := [] }
    (List.Sublist.refl _) rfl

/-- C3 witness: a header parameter that declares style `form` and
`explode: false` is normalized with `explode = true`. -/
theorem claim3_witness :
    (normalizeFormat Location.header (some Style.form) (some false)).explode = true :=
  ((claim3_format_normalization.1 Location.header (some Style.form) (some false)).2).mpr
    (Or.inr rfl)

end Oas

